import Mathlib

/-!
# Comazon: order fulfilment, order totals and the saved-product toggle

A shallow embedding of the request handlers of `src/app.js` that carry the
multi-entity logic of the marketplace backend:

* `asyncHandler` (lines 28-48): the mapping from a thrown error to a response,
* `POST /users/:id/saved-products` (lines 107-139): the saved-product toggle,
* `GET /orders/:id` (lines 313-328): the order total,
* `POST /orders` (lines 334-402): stock check, order creation, stock decrement.

The relational store behind Prisma is an explicit value of type `Store` that
every handler receives and returns.  Stock and quantity are integer columns;
they are only compared and subtracted, and are integers here.  Prices are
JavaScript numbers: `JsNumber` is IEEE 754 binary64 with its addition and
multiplication (round to nearest, ties to even), which is the arithmetic of
the loop that computes an order total.  Identifiers (UUID strings in the
running system) are natural numbers; only their equality is ever used.
-/

namespace Comazon

/-! ## Data model -/

/-- Identifier of a record: only compared for equality. -/
abbrev Id := Nat

/-! ## JavaScript numbers -/

/-- Exponent of the unit of a finite number: one unit is `2^(-1074)`, the
smallest positive binary64 value, and every finite binary64 value is a whole
number of units. -/
def unitBits : Nat := 1074

/-- Number of bits of the significand of a binary64 value. -/
def significandBits : Nat := 53

/-- Exponent of the overflow threshold `2^1024`, counted in units:
`2^1024 = 2^2098 * 2^(-1074)`. -/
def overflowBits : Nat := 2098

/-- JavaScript number (IEEE 754 binary64).  A finite value is its number of
units of `2^(-1074)`; the two zeros are one value, which addition and
multiplication of the other values cannot tell apart. -/
inductive JsNumber where
  | finite (units : Int)
  | infinity (negative : Bool)
  | nan
  deriving DecidableEq, Repr

/-- Position of the highest set bit of `x`, found by bisection with `k` steps
from the lower bound `acc`: for `1 ≤ x < 2^(2^k)` the result of
`log2Aux k x 0` is the `L` with `2^L ≤ x < 2^(L+1)`. -/
def log2Aux : Nat → Nat → Nat → Nat
  | 0, _, acc => acc
  | k + 1, x, acc =>
    if 2 ^ (acc + 2 ^ k) ≤ x then log2Aux k x (acc + 2 ^ k) else log2Aux k x acc

/-- Rounding of the magnitude `a * 2^(-2148)` (a number of squared units,
`a < 2^4096`) to the nearest binary64 magnitude, ties to even; the result is
in units.  The quotient keeps 53 significant bits, and no bit below one unit. -/
def roundMagnitude (a : Nat) : Nat :=
  let shift := max unitBits (log2Aux 12 a 0 + 1 - significandBits)
  let q := a / 2 ^ shift
  let r := a % 2 ^ shift
  let half := 2 ^ (shift - 1)
  let q1 := if half < r then q + 1 else if r = half then (if q % 2 = 0 then q else q + 1) else q
  q1 * 2 ^ (shift - unitBits)

/-- The binary64 value nearest to the real number `n * 2^(-2148)`: rounding to
nearest, ties to even, and overflow to an infinity when the rounded magnitude
reaches `2^1024`. -/
def roundToDouble (n : Int) : JsNumber :=
  if 2 ^ (overflowBits + unitBits) ≤ n.natAbs then .infinity (decide (n < 0))
  else if 2 ^ overflowBits ≤ roundMagnitude n.natAbs then .infinity (decide (n < 0))
  else .finite (if n < 0 then -(roundMagnitude n.natAbs : Int) else (roundMagnitude n.natAbs : Int))

/-- The JavaScript operator `+` on numbers. -/
def jsAdd : JsNumber → JsNumber → JsNumber
  | .finite x, .finite y => roundToDouble ((x + y) * 2 ^ unitBits)
  | .nan, _ => .nan
  | _, .nan => .nan
  | .infinity a, .infinity b => if a = b then .infinity a else .nan
  | .infinity a, .finite _ => .infinity a
  | .finite _, .infinity b => .infinity b

/-- The JavaScript operator `*` on numbers. -/
def jsMul : JsNumber → JsNumber → JsNumber
  | .finite x, .finite y => roundToDouble (x * y)
  | .nan, _ => .nan
  | _, .nan => .nan
  | .infinity a, .infinity b => .infinity (a != b)
  | .infinity a, .finite y => if y = 0 then .nan else .infinity (a != decide (y < 0))
  | .finite x, .infinity b => if x = 0 then .nan else .infinity (decide (x < 0) != b)

/-- The number that holds an integer: the binary64 value nearest to it. -/
def JsNumber.ofInt (i : Int) : JsNumber :=
  roundToDouble (i * 2 ^ unitBits * 2 ^ unitBits)

instance (n : Nat) : OfNat JsNumber n := ⟨JsNumber.ofInt n⟩

/-- Number of units of a finite number (0 for an infinity and for NaN). -/
def JsNumber.units : JsNumber → Int
  | .finite units => units
  | _ => 0

/-- Test for a finite number. -/
def JsNumber.isFinite : JsNumber → Bool
  | .finite _ => true
  | _ => false

/-- A number of units that is a binary64 value: at most 53 significant bits,
and a magnitude below `2^1024`. -/
def Representable (k : Int) : Prop :=
  (∃ m : Int, ∃ j : Nat, k = m * 2 ^ j ∧ m.natAbs < 2 ^ significandBits) ∧
    k.natAbs < 2 ^ overflowBits

/-- Row of the product table: the columns the handlers read or write. -/
structure Product where
  id : Id
  price : JsNumber
  stock : Int
  deriving DecidableEq, Repr

/-- Line item.  The handler of `POST /orders` hands the `orderItems` array of
the request body to `prisma.order.create` as it is (`create: orderItems`, line
389), so one record type serves for the item of the request and for the stored
row; `GET /orders/:id` reads `unitPrice` and `quantity` from the stored row. -/
structure OrderItem where
  productId : Id
  unitPrice : JsNumber
  quantity : Int
  deriving DecidableEq, Repr

/-- Row of the order table together with its line items (`include: orderItems`). -/
structure Order where
  id : Id
  userId : Id
  orderItems : List OrderItem
  deriving DecidableEq, Repr

/-- Row of the user table. -/
structure User where
  id : Id
  deriving DecidableEq, Repr

/-- State of the store: the three tables and the join table of the
many-to-many relation `savedProducts`, as pairs `(userId, productId)`. -/
structure Store where
  users : List User
  products : List Product
  orders : List Order
  savedProducts : List (Id × Id)
  deriving DecidableEq, Repr

/-- Constraints the relational store maintains: primary keys are unique and
an edge of the saved-products relation is stored at most once. -/
def Store.WellFormed (s : Store) : Prop :=
  (s.products.map (fun p => p.id)).Nodup ∧ s.savedProducts.Nodup

instance (s : Store) : Decidable s.WellFormed := by
  unfold Store.WellFormed; infer_instance

/-! ## Errors and responses -/

/-- Thrown JavaScript value, reduced to what `asyncHandler` inspects: the
`name` property, the two `instanceof` tests, the Prisma error `code`, and the
message. -/
structure JsError where
  name : String
  prismaValidation : Bool
  prismaKnownRequest : Bool
  code : String
  message : String
  deriving DecidableEq, Repr

/-- Error thrown by superstruct `assert` on a body that does not match. -/
def structError : JsError :=
  ⟨"StructError", false, false, "", "Expected a value matching the struct"⟩

/-- Error raised by reading or destructuring a property of `null`/`undefined`. -/
def typeError : JsError :=
  ⟨"TypeError", false, false, "", "Cannot read properties of null or undefined"⟩

/-- Value of `new Error('Insufficient Stock')` (line 355). -/
def insufficientStockError : JsError :=
  ⟨"Error", false, false, "", "Insufficient Stock"⟩

/-- Prisma known request error P2025: a record the operation needs is absent. -/
def recordNotFoundError : JsError :=
  ⟨"PrismaClientKnownRequestError", false, true, "P2025", "Record not found"⟩

/-- Prisma known request error P2003: a foreign key constraint failed. -/
def foreignKeyError : JsError :=
  ⟨"PrismaClientKnownRequestError", false, true, "P2003", "Foreign key constraint failed"⟩

/-- Body of a response. -/
inductive Body where
  | text (t : String)
  | message (m : String)
  | products (ps : List Product)
  | order (o : Order)
  | orderWithTotal (o : Order) (total : JsNumber)
  deriving DecidableEq, Repr

/-- Response sent to the caller. -/
structure Response where
  status : Nat
  body : Body
  deriving DecidableEq, Repr

/-- The `catch` block of `asyncHandler` (lines 32-46). -/
def errorResponse (e : JsError) : Response :=
  if e.name = "StructError" ∨ e.prismaValidation = true then
    ⟨400, .message e.message⟩
  else if e.prismaKnownRequest = true ∧ e.code = "P2025" then
    ⟨404, .text "Not Found"⟩
  else
    ⟨500, .message e.message⟩

/-- Outcome of running a handler body: the store it leaves behind and either
the response it sent or the error it threw. -/
abbrev Outcome := Store × Except JsError Response

/-- Wrapper `asyncHandler` (lines 28-48): run the handler, answer a thrown error with
`errorResponse`. -/
def asyncHandler (outcome : Outcome) : Store × Response :=
  match outcome with
  | (s, .ok res) => (s, res)
  | (s, .error e) => (s, errorResponse e)

/-! ## `GET /orders/:id` -/

/-- Query `prisma.order.findUniqueOrThrow` with `include: orderItems`. -/
def orderFindUniqueOrThrow (s : Store) (id : Id) : Except JsError Order :=
  match s.orders.find? (fun o => o.id == id) with
  | some o => .ok o
  | none => .error recordNotFoundError

/-- The handler body of `GET /orders/:id` (lines 313-328): the `forEach` loop
adds `unitPrice * quantity` of each line item to `total`, starting from 0, in
the arithmetic of JavaScript numbers; the quantity, read from an integer
column, is the number that holds that integer. -/
def getOrder (s : Store) (id : Id) : Outcome :=
  match orderFindUniqueOrThrow s id with
  | .error e => (s, .error e)
  | .ok order =>
    let total := order.orderItems.foldl
      (fun total orderItem =>
        jsAdd total (jsMul orderItem.unitPrice (JsNumber.ofInt orderItem.quantity)))
      (JsNumber.ofInt 0)
    (s, .ok ⟨200, .orderWithTotal order total⟩)

/-! ## `POST /users/:id/saved-products` -/

/-- Body of the toggle request; `none` stands for a body that the struct
`PostSavedProduct` rejects. -/
structure SavedProductBody where
  productId : Option Id
  deriving DecidableEq, Repr

/-- Query `prisma.user.findUnique`: the user, or `null`. -/
def userFindUnique (s : Store) (userId : Id) : Option User :=
  s.users.find? (fun u => u.id == userId)

/-- The relation field `savedProducts` of a user: the products joined to the
user by the join table. -/
def savedProductsOf (s : Store) (userId : Id) : List Product :=
  s.products.filter (fun p => s.savedProducts.contains (userId, p.id))

/-- The two nested writes the handler chooses between (line 123). -/
inductive Action where
  | connect
  | disconnect
  deriving DecidableEq, Repr

/-- Write `prisma.user.update` with the nested write `savedProducts: { [action]: { id } }`.
Updating an absent user, or connecting an absent product, is error P2025;
connecting an edge that is there and disconnecting one that is not change
nothing. -/
def userUpdateSavedProducts (s : Store) (userId : Id) (action : Action) (productId : Id) :
    Except JsError Store :=
  if (s.users.any (fun u => u.id == userId)) = false then .error recordNotFoundError
  else
    match action with
    | .connect =>
      if (s.products.any (fun p => p.id == productId)) = false then .error recordNotFoundError
      else if s.savedProducts.contains (userId, productId) then .ok s
      else .ok { s with savedProducts := s.savedProducts ++ [(userId, productId)] }
    | .disconnect =>
      .ok { s with savedProducts := s.savedProducts.filter (fun e => e != (userId, productId)) }

/-- The handler body of `POST /users/:id/saved-products` (lines 107-139).
Destructuring the result of `findUnique` (line 114) throws a `TypeError` when
the result is `null`. -/
def postSavedProducts (s : Store) (userId : Id) (body : SavedProductBody) : Outcome :=
  match body.productId with
  | none => (s, .error structError)
  | some productId =>
    match userFindUnique s userId with
    | none => (s, .error typeError)
    | some _ =>
      let savedProducts := (savedProductsOf s userId).filter (fun p => p.id == productId)
      let action := if savedProducts.length > 0 then Action.disconnect else Action.connect
      match userUpdateSavedProducts s userId action productId with
      | .error e => (s, .error e)
      | .ok s1 => (s1, .ok ⟨200, .products (savedProductsOf s1 userId)⟩)

/-! ## `POST /orders` -/

/-- Body of the order request. -/
structure CreateOrderBody where
  userId : Id
  orderItems : List OrderItem
  deriving DecidableEq, Repr

/-- Modelled from the spec: the struct `CreateOrder` of `structs.js`, which is
not among the sources.  The spec rejects a body whose line-item list is empty
or that has a quantity `≤ 0`. -/
def validCreateOrder (body : CreateOrderBody) : Bool :=
  !body.orderItems.isEmpty && body.orderItems.all (fun orderItem => decide (0 < orderItem.quantity))

/-- Query `prisma.product.findMany({ where: { id: { in: productIds } } })`. -/
def productFindMany (s : Store) (productIds : List Id) : List Product :=
  s.products.filter (fun p => productIds.contains p.id)

/-- Helper `getQuantity` (lines 343-346): the quantity of the first line item whose
`productId` is the given one; reading `.quantity` of `undefined` throws. -/
def getQuantity (orderItems : List OrderItem) (productId : Id) : Except JsError Int :=
  match orderItems.find? (fun orderItem => orderItem.productId == productId) with
  | some orderItem => .ok orderItem.quantity
  | none => .error typeError

/-- Verdict `isSufficientStock` (lines 349-352): `products.every(...)`, which visits the
fetched products in order and stops at the first one that fails the test. -/
def isSufficientStock (orderItems : List OrderItem) : List Product → Except JsError Bool
  | [] => .ok true
  | product :: rest =>
    match getQuantity orderItems product.id with
    | .error e => .error e
    | .ok quantity =>
      if product.stock ≥ quantity then isSufficientStock orderItems rest else .ok false

/-- Array `queryPromises` (lines 370-380): one stock update per entry of `productIds`,
each decrementing by `getQuantity(productId)`, evaluated while the array is built. -/
def queryPromises (orderItems : List OrderItem) : List Id → Except JsError (List (Id × Int))
  | [] => .ok []
  | productId :: rest =>
    match getQuantity orderItems productId with
    | .error e => .error e
    | .ok quantity =>
      match queryPromises orderItems rest with
      | .error e => .error e
      | .ok updates => .ok ((productId, quantity) :: updates)

/-- Identifier the store gives to a new order: one that no order has. -/
def freshOrderId (s : Store) : Id :=
  (s.orders.map (fun o => o.id)).foldl max 0 + 1

/-- Modelled from the spec: the foreign keys of the schema, which is not among
the sources.  An order references its owning user and a line item references a
product, so `prisma.order.create` with nested `orderItems: { create }` fails
with P2003 when one of them is absent; otherwise it stores the order with the
given line items. -/
def orderCreate (s : Store) (userId : Id) (orderItems : List OrderItem) :
    Except JsError (Store × Order) :=
  if (s.users.any (fun u => u.id == userId)) = false then .error foreignKeyError
  else if (orderItems.all (fun orderItem =>
      s.products.any (fun p => p.id == orderItem.productId))) = false then
    .error foreignKeyError
  else
    let order : Order := ⟨freshOrderId s, userId, orderItems⟩
    .ok ({ s with orders := s.orders ++ [order] }, order)

/-- Write `prisma.product.update({ where: { id }, data: { stock: { decrement } } })`. -/
def productUpdate (s : Store) (productId : Id) (decrement : Int) : Except JsError Store :=
  if (s.products.any (fun p => p.id == productId)) = false then .error recordNotFoundError
  else
    .ok { s with products := s.products.map (fun p =>
      if p.id == productId then { p with stock := p.stock - decrement } else p) }

/-- The stock updates of the transaction, run in order. -/
def runUpdates : Store → List (Id × Int) → Except JsError Store
  | s, [] => .ok s
  | s, (productId, decrement) :: rest =>
    match productUpdate s productId decrement with
    | .error e => .error e
    | .ok s1 => runUpdates s1 rest

/-- Call `prisma.$transaction([order.create, ...queryPromises])` (lines 384-397):
the writes run in order on the store; an error in any of them is the result,
and the caller keeps the store it had (rollback). -/
def transaction (s : Store) (userId : Id) (orderItems : List OrderItem)
    (updates : List (Id × Int)) : Except JsError (Store × Order) :=
  match orderCreate s userId orderItems with
  | .error e => .error e
  | .ok (s1, order) =>
    match runUpdates s1 updates with
    | .error e => .error e
    | .ok s2 => .ok (s2, order)

/-- The handler body of `POST /orders` (lines 334-402). -/
def postOrders (s : Store) (body : CreateOrderBody) : Outcome :=
  if validCreateOrder body = false then (s, .error structError)
  else
    let orderItems := body.orderItems
    let productIds := orderItems.map (fun orderItem => orderItem.productId)
    let products := productFindMany s productIds
    match isSufficientStock orderItems products with
    | .error e => (s, .error e)
    | .ok false => (s, .error insufficientStockError)
    | .ok true =>
      match queryPromises orderItems productIds with
      | .error e => (s, .error e)
      | .ok updates =>
        match transaction s body.userId orderItems updates with
        | .error e => (s, .error e)
        | .ok (s1, order) => (s1, .ok ⟨201, .order order⟩)

/-- Stock of the product with the given id, if the store has it. -/
def stockOf (s : Store) (productId : Id) : Option Int :=
  (s.products.find? (fun p => p.id == productId)).map (fun p => p.stock)

/-- Sum of the quantities of the line items that name the given product. -/
def requestedQuantity (orderItems : List OrderItem) (productId : Id) : Int :=
  ((orderItems.filter (fun orderItem => orderItem.productId == productId)).map
    (fun orderItem => orderItem.quantity)).sum

/-- Quantity of the first line item that names the given product, 0 when no
line item does: the value of `getQuantity` where it does not throw. -/
def firstQuantity (orderItems : List OrderItem) (productId : Id) : Int :=
  match orderItems.find? (fun orderItem => orderItem.productId == productId) with
  | some orderItem => orderItem.quantity
  | none => 0

/-- Sum of the decrements that a list of stock updates applies to one product. -/
def decrementFor (updates : List (Id × Int)) (productId : Id) : Int :=
  ((updates.filter (fun update => update.1 == productId)).map (fun update => update.2)).sum

/-- The store after a toggle of the edge `(userId, productId)`: the edge is
filtered out when it is there and appended when it is not. -/
def toggleEdge (s : Store) (userId productId : Id) : Store :=
  if (userId, productId) ∈ s.savedProducts then
    { s with savedProducts := s.savedProducts.filter (fun e => e != (userId, productId)) }
  else
    { s with savedProducts := s.savedProducts ++ [(userId, productId)] }

/-! ## Concrete stores and requests used in the evaluations below -/

/-- One user (id 1) and one product (id 7, price 100) with the given stock. -/
def shop (stock : Int) : Store :=
  ⟨[⟨1⟩], [⟨7, 100, stock⟩], [], []⟩

/-- Store with no user at all and one product (id 7). -/
def noUserShop : Store :=
  ⟨[], [⟨7, 100, 5⟩], [], []⟩

/-- Store with one user and two products: 7 with stock 5, 8 with stock 1. -/
def twoProductShop : Store :=
  ⟨[⟨1⟩], [⟨7, 100, 5⟩, ⟨8, 40, 1⟩], [], []⟩

/-- Store with user 1, products 7 and 8, and product 8 saved by user 1. -/
def savedShop : Store :=
  ⟨[⟨1⟩], [⟨7, 100, 5⟩, ⟨8, 40, 1⟩], [], [(1, 8)]⟩

/-- Store with one order whose line items have the unit prices `2^53` and 1. -/
def ledger : Store :=
  ⟨[⟨1⟩], [], [⟨4, 1, [⟨7, 9007199254740992, 1⟩, ⟨7, 1, 1⟩]⟩], []⟩

/-- The binary64 value nearest to 0.1, which is `3602879701896397 * 2^(-55)`. -/
def oneTenth : JsNumber :=
  .finite (3602879701896397 * 2 ^ 1019)

/-- Store with one order of 3 units at the unit price `oneTenth`, and one order
of 3 units at the unit price one half. -/
def fractionLedger : Store :=
  ⟨[⟨1⟩], [], [⟨4, 1, [⟨7, oneTenth, 3⟩]⟩, ⟨5, 1, [⟨7, .finite (2 ^ 1073), 3⟩]⟩], []⟩

/-- Store with one order of two line items; the product they name now costs 999. -/
def archive : Store :=
  ⟨[⟨1⟩], [⟨7, 999, 5⟩], [⟨4, 1, [⟨7, 100, 2⟩, ⟨7, 30, 3⟩]⟩], []⟩

/-! ## Error mapping -/

theorem errorResponse_status (e : JsError) :
    (errorResponse e).status =
      if e.name = "StructError" ∨ e.prismaValidation = true then 400
      else if e.prismaKnownRequest = true ∧ e.code = "P2025" then 404 else 500 := by
  unfold errorResponse
  split_ifs <;> rfl

theorem asyncHandler_error (s : Store) (e : JsError) :
    asyncHandler (s, .error e) = (s, errorResponse e) := rfl

theorem asyncHandler_ok (s : Store) (res : Response) :
    asyncHandler (s, .ok res) = (s, res) := rfl

/-- When the verdict is `false` the handler of `POST /orders` throws
`Error('Insufficient Stock')` and leaves the store alone. -/
theorem postOrders_of_insufficient (s : Store) (body : CreateOrderBody)
    (hvalid : validCreateOrder body = true)
    (hverdict : isSufficientStock body.orderItems
      (productFindMany s (body.orderItems.map (fun orderItem => orderItem.productId))) = .ok false) :
    postOrders s body = (s, .error insufficientStockError) := by
  unfold postOrders
  simp [hvalid, hverdict]

/-- C10: a request to `POST /orders` that is rejected because `isSufficientStock`
is false is answered with status 500, which differs from the status 400 given
to `StructError` and Prisma validation errors; and `asyncHandler` answers every
thrown error with one status, which is 400, 404 or 500 according to the three
branches of its `catch` block. -/
theorem insufficient_stock_distinguishable (s : Store) (body : CreateOrderBody)
    (hvalid : validCreateOrder body = true)
    (hverdict : isSufficientStock body.orderItems
      (productFindMany s (body.orderItems.map (fun orderItem => orderItem.productId))) = .ok false) :
    (asyncHandler (postOrders s body)).2.status = 500 ∧
    (asyncHandler (postOrders s body)).2.status ≠ 400 ∧
    (∀ (st : Store) (e : JsError),
      (e.name = "StructError" ∨ e.prismaValidation = true) →
        (asyncHandler (st, .error e)).2.status = 400) ∧
    (∀ (st : Store) (e : JsError),
      ((asyncHandler (st, .error e)).2.status = 400 ∧
        (e.name = "StructError" ∨ e.prismaValidation = true)) ∨
      ((asyncHandler (st, .error e)).2.status = 404 ∧
        ¬ (e.name = "StructError" ∨ e.prismaValidation = true) ∧
        (e.prismaKnownRequest = true ∧ e.code = "P2025")) ∨
      ((asyncHandler (st, .error e)).2.status = 500 ∧
        ¬ (e.name = "StructError" ∨ e.prismaValidation = true) ∧
        ¬ (e.prismaKnownRequest = true ∧ e.code = "P2025"))) := by
  have hpost := postOrders_of_insufficient s body hvalid hverdict
  refine ⟨?_, ?_, ?_, ?_⟩
  · rw [hpost, asyncHandler_error, errorResponse_status]; decide
  · rw [hpost, asyncHandler_error, errorResponse_status]; decide
  · intro st e he
    rw [asyncHandler_error, errorResponse_status, if_pos he]
  · intro st e
    rw [asyncHandler_error, errorResponse_status]
    by_cases h1 : e.name = "StructError" ∨ e.prismaValidation = true
    · left; exact ⟨by rw [if_pos h1], h1⟩
    · by_cases h2 : e.prismaKnownRequest = true ∧ e.code = "P2025"
      · right; left; exact ⟨by rw [if_neg h1, if_pos h2], h1, h2⟩
      · right; right; exact ⟨by rw [if_neg h1, if_neg h2], h1, h2⟩

/-- Witness for C10: the request for 3 units against a stock of 2. -/
theorem insufficient_stock_distinguishable_witness :
    validCreateOrder ⟨1, [⟨7, 100, 3⟩]⟩ = true ∧
    isSufficientStock [⟨7, 100, 3⟩] (productFindMany (shop 2) [7]) = .ok false ∧
    (asyncHandler (postOrders (shop 2) ⟨1, [⟨7, 100, 3⟩]⟩)).2.status = 500 ∧
    (asyncHandler (postOrders (shop 2) ⟨1, [⟨7, 100, 3⟩]⟩)).2.status ≠ 400 :=
  have h := insufficient_stock_distinguishable (shop 2) ⟨1, [⟨7, 100, 3⟩]⟩
    (by decide) (by rfl)
  ⟨by decide, by rfl, h.1, h.2.1⟩

/-! ## Toggle for an absent user -/

/-- For a user id that names no user the toggle handler throws a `TypeError`
before it writes anything, and `asyncHandler` answers it with status 500. -/
theorem postSavedProducts_absent_user (s : Store) (userId productId : Id)
    (habsent : userFindUnique s userId = none) :
    asyncHandler (postSavedProducts s userId ⟨some productId⟩) =
      (s, ⟨500, .message typeError.message⟩) := by
  unfold postSavedProducts
  simp only [habsent]
  rfl

/-- C9: evaluation at a store without users.  The toggle request for user 1
with the well-formed body `{ productId: 7 }` names no existing user; the store
is unchanged, and the status of the response is 500, not 404. -/
theorem toggle_absent_user_status_500 :
    userFindUnique noUserShop 1 = none ∧
    (asyncHandler (postSavedProducts noUserShop 1 ⟨some 7⟩)).1 = noUserShop ∧
    (asyncHandler (postSavedProducts noUserShop 1 ⟨some 7⟩)).2.status = 500 ∧
    (asyncHandler (postSavedProducts noUserShop 1 ⟨some 7⟩)).2.status ≠ 404 := by
  decide!

/-! ## Arithmetic of JavaScript numbers -/

/-- The bisection never leaves the argument below its result. -/
theorem pow_log2Aux_le (k x acc : Nat) (h : 2 ^ acc ≤ x) : 2 ^ log2Aux k x acc ≤ x := by
  induction k generalizing acc with
  | zero => exact h
  | succ k ih =>
    unfold log2Aux
    split_ifs with hge
    · exact ih _ hge
    · exact ih _ h

/-- The bisection ends one bit below the upper bound it started with. -/
theorem lt_pow_log2Aux (k x acc : Nat) (h : x < 2 ^ (acc + 2 ^ k)) :
    x < 2 ^ (log2Aux k x acc + 1) := by
  induction k generalizing acc with
  | zero => simpa [log2Aux] using h
  | succ k ih =>
    unfold log2Aux
    split_ifs with hge
    · apply ih
      have hsum : acc + 2 ^ k + 2 ^ k = acc + 2 ^ (k + 1) := by rw [pow_succ]; ring
      rw [hsum]
      exact h
    · exact ih _ (not_le.mp hge)

theorem log2Aux_zero (k acc : Nat) : log2Aux k 0 acc = acc := by
  induction k generalizing acc with
  | zero => rfl
  | succ k ih =>
    unfold log2Aux
    have hpos : ¬ 2 ^ (acc + 2 ^ k) ≤ 0 := Nat.not_le.mpr (Nat.two_pow_pos _)
    rw [if_neg hpos]
    exact ih acc

theorem shift_bound (L p j u : Nat) (h : L < p + j + u) : L + 1 - p ≤ j + u := by
  omega

theorem exponent_split (j u shift : Nat) (hlo : u ≤ shift) (hhi : shift ≤ j + u) :
    j + u - shift + (shift - u) = j := by
  omega

theorem mul_pow_lt (a p u o : Nat) (ha : a < 2 ^ p) (h : p + u ≤ o) : a * 2 ^ u < 2 ^ o :=
  calc a * 2 ^ u < 2 ^ p * 2 ^ u := Nat.mul_lt_mul_of_pos_right ha (Nat.two_pow_pos _)
    _ = 2 ^ (p + u) := (Nat.pow_add 2 p u).symm
    _ ≤ 2 ^ o := Nat.pow_le_pow_right (by norm_num) h

theorem neg_natAbs_of_neg (k : Int) (h : k < 0) : -(k.natAbs : Int) = k := by
  omega

theorem natAbs_of_not_neg (k : Int) (h : ¬ k < 0) : (k.natAbs : Int) = k := by
  omega

/-- A magnitude with at most 53 significant bits is not changed by rounding. -/
theorem roundMagnitude_exact (m j : Nat) (hm : m < 2 ^ significandBits) :
    roundMagnitude (m * 2 ^ j * 2 ^ unitBits) = m * 2 ^ j := by
  have hshift : ∃ shift,
      max unitBits (log2Aux 12 (m * 2 ^ j * 2 ^ unitBits) 0 + 1 - significandBits) = shift ∧
        unitBits ≤ shift ∧ shift ≤ j + unitBits := by
    refine ⟨_, rfl, le_max_left _ _, ?_⟩
    apply max_le (Nat.le_add_left _ _)
    by_cases hzero : m * 2 ^ j * 2 ^ unitBits = 0
    · rw [hzero, log2Aux_zero]
      have hbits : 0 < significandBits := by decide
      exact shift_bound 0 significandBits j unitBits
        (Nat.lt_of_lt_of_le hbits (Nat.le_trans (Nat.le_add_right _ _) (Nat.le_add_right _ _)))
    · have hpos : 2 ^ 0 ≤ m * 2 ^ j * 2 ^ unitBits := Nat.one_le_iff_ne_zero.mpr hzero
      have hle := pow_log2Aux_le 12 _ 0 hpos
      have hlt : m * 2 ^ j * 2 ^ unitBits < 2 ^ (significandBits + j + unitBits) := by
        rw [Nat.pow_add, Nat.pow_add]
        apply Nat.mul_lt_mul_of_pos_right
        · exact Nat.mul_lt_mul_of_pos_right hm (Nat.two_pow_pos _)
        · exact Nat.two_pow_pos _
      have hL : log2Aux 12 (m * 2 ^ j * 2 ^ unitBits) 0 < significandBits + j + unitBits :=
        (Nat.pow_lt_pow_iff_right (by norm_num)).mp (lt_of_le_of_lt hle hlt)
      exact shift_bound _ _ _ _ hL
  obtain ⟨shift, hdef, hlo, hhi⟩ := hshift
  unfold roundMagnitude
  simp only [hdef]
  have hsplit : m * 2 ^ j * 2 ^ unitBits = (m * 2 ^ (j + unitBits - shift)) * 2 ^ shift := by
    rw [Nat.mul_assoc, Nat.mul_assoc, ← Nat.pow_add, ← Nat.pow_add, Nat.sub_add_cancel hhi]
  have hr : m * 2 ^ j * 2 ^ unitBits % 2 ^ shift = 0 := by
    rw [hsplit]
    exact Nat.mul_mod_left _ _
  have hq : m * 2 ^ j * 2 ^ unitBits / 2 ^ shift = m * 2 ^ (j + unitBits - shift) := by
    rw [hsplit]
    exact Nat.mul_div_cancel _ (Nat.two_pow_pos _)
  have hhalf : 0 < 2 ^ (shift - 1) := Nat.two_pow_pos _
  rw [hr, hq, if_neg (Nat.not_lt_zero _), if_neg (Nat.ne_of_lt hhalf), Nat.mul_assoc,
    ← Nat.pow_add, exponent_split j unitBits shift hlo hhi]

/-- A real number that is a binary64 value is not changed by rounding. -/
theorem roundToDouble_exact (k : Int) (hk : Representable k) :
    roundToDouble (k * 2 ^ unitBits) = .finite k := by
  obtain ⟨⟨m, j, hkm, hm⟩, hlt⟩ := hk
  have htwo : (2 : Int).natAbs = 2 := rfl
  have hkabs : k.natAbs = m.natAbs * 2 ^ j := by
    rw [hkm, Int.natAbs_mul, Int.natAbs_pow, htwo]
  have habs : (k * 2 ^ unitBits).natAbs = m.natAbs * 2 ^ j * 2 ^ unitBits := by
    rw [Int.natAbs_mul, Int.natAbs_pow, hkabs, htwo]
  have hround : roundMagnitude (k * 2 ^ unitBits).natAbs = k.natAbs := by
    rw [habs, roundMagnitude_exact _ _ hm, hkabs]
  have hguard : ¬ 2 ^ (overflowBits + unitBits) ≤ (k * 2 ^ unitBits).natAbs := by
    rw [Int.natAbs_mul, Int.natAbs_pow, htwo, Nat.pow_add, not_le]
    exact Nat.mul_lt_mul_of_pos_right hlt (Nat.two_pow_pos _)
  have hpow : (0 : Int) < 2 ^ unitBits := pow_pos (by norm_num) _
  unfold roundToDouble
  rw [if_neg hguard, hround, if_neg (not_le.mpr hlt)]
  by_cases hneg : k < 0
  · rw [if_pos (mul_neg_of_neg_of_pos hneg hpow), neg_natAbs_of_neg k hneg]
  · have hnonneg : ¬ k * 2 ^ unitBits < 0 :=
      not_lt.mpr (mul_nonneg (not_lt.mp hneg) (le_of_lt hpow))
    rw [if_neg hnonneg, natAbs_of_not_neg k hneg]

/-- An integer of fewer than 54 bits, counted in units, is a binary64 value. -/
theorem representable_int (i : Int) (hi : i.natAbs < 2 ^ significandBits) :
    Representable (i * 2 ^ unitBits) := by
  refine ⟨⟨i, unitBits, rfl, hi⟩, ?_⟩
  have htwo : (2 : Int).natAbs = 2 := rfl
  rw [Int.natAbs_mul, Int.natAbs_pow, htwo]
  exact mul_pow_lt _ _ _ _ hi (by decide)

theorem representable_of_eq (k i : Int) (hk : k = i * 2 ^ unitBits)
    (hi : i.natAbs < 2 ^ significandBits) : Representable k := by
  rw [hk]
  exact representable_int i hi

/-- The number that holds an integer of fewer than 54 bits is that integer. -/
theorem ofInt_exact (i : Int) (hi : i.natAbs < 2 ^ significandBits) :
    JsNumber.ofInt i = .finite (i * 2 ^ unitBits) :=
  roundToDouble_exact _ (representable_int i hi)

theorem jsAdd_exact (x y : Int) (h : Representable (x + y)) :
    jsAdd (.finite x) (.finite y) = .finite (x + y) :=
  roundToDouble_exact _ h

theorem jsMul_exact (x q : Int) (hq : q.natAbs < 2 ^ significandBits)
    (h : Representable (x * q)) :
    jsMul (.finite x) (JsNumber.ofInt q) = .finite (x * q) := by
  rw [ofInt_exact q hq]
  show roundToDouble (x * (q * 2 ^ unitBits)) = .finite (x * q)
  rw [← mul_assoc]
  exact roundToDouble_exact _ h

theorem shift_cover (L p shift : Nat) (h : L + 1 - p ≤ shift) : L + 1 ≤ shift + p := by
  omega

/-- The rounded magnitude has at most 53 significant bits. -/
theorem roundMagnitude_significand (a : Nat) (ha : a < 2 ^ (0 + 2 ^ 12)) :
    ∃ m j : Nat, roundMagnitude a = m * 2 ^ j ∧ m < 2 ^ significandBits := by
  have hshift : ∃ shift,
      max unitBits (log2Aux 12 a 0 + 1 - significandBits) = shift ∧
        log2Aux 12 a 0 + 1 ≤ shift + significandBits :=
    ⟨_, rfl, shift_cover _ _ _ (le_max_right _ _)⟩
  obtain ⟨shift, hdef, hcover⟩ := hshift
  have hlt : a < 2 ^ shift * 2 ^ significandBits := by
    rw [← Nat.pow_add]
    exact lt_of_lt_of_le (lt_pow_log2Aux 12 a 0 ha) (Nat.pow_le_pow_right (by norm_num) hcover)
  have hq : a / 2 ^ shift < 2 ^ significandBits :=
    Nat.div_lt_of_lt_mul hlt
  have hone : 1 < 2 ^ significandBits := Nat.one_lt_two_pow (by decide)
  have hcases : ∀ q1 : Nat, q1 ≤ a / 2 ^ shift + 1 →
      ∃ m j : Nat, q1 * 2 ^ (shift - unitBits) = m * 2 ^ j ∧ m < 2 ^ significandBits := by
    intro q1 hq1
    by_cases hfull : q1 = 2 ^ significandBits
    · refine ⟨1, significandBits + (shift - unitBits), ?_, hone⟩
      rw [hfull, Nat.one_mul, Nat.pow_add]
    · exact ⟨q1, shift - unitBits, rfl, lt_of_le_of_ne (le_trans hq1 hq) hfull⟩
  unfold roundMagnitude
  simp only [hdef]
  apply hcases
  split_ifs
  · exact le_refl _
  · exact Nat.le_succ _
  · exact le_refl _
  · exact Nat.le_succ _

/-- A finite result of rounding is a binary64 value. -/
theorem roundToDouble_representable (n k : Int) (h : roundToDouble n = .finite k) :
    Representable k := by
  unfold roundToDouble at h
  split_ifs at h with hguard hover hneg
  · have ha : n.natAbs < 2 ^ (0 + 2 ^ 12) :=
      lt_of_lt_of_le (not_le.mp hguard) (Nat.pow_le_pow_right (by norm_num) (by decide))
    obtain ⟨m, j, hm, hbits⟩ := roundMagnitude_significand n.natAbs ha
    simp only [JsNumber.finite.injEq] at h
    refine ⟨⟨-(m : Int), j, ?_, by simpa using hbits⟩, ?_⟩
    · rw [← h, hm]
      push_cast
      ring
    · rw [← h, Int.natAbs_neg, Int.natAbs_ofNat]
      exact not_le.mp hover
  · have ha : n.natAbs < 2 ^ (0 + 2 ^ 12) :=
      lt_of_lt_of_le (not_le.mp hguard) (Nat.pow_le_pow_right (by norm_num) (by decide))
    obtain ⟨m, j, hm, hbits⟩ := roundMagnitude_significand n.natAbs ha
    simp only [JsNumber.finite.injEq] at h
    refine ⟨⟨(m : Int), j, ?_, by simpa using hbits⟩, ?_⟩
    · rw [← h, hm]
      push_cast
      ring
    · rw [← h, Int.natAbs_ofNat]
      exact not_le.mp hover

/-- Known results of binary64 arithmetic, computed by the model: `0.1 + 0.2` is
`0.30000000000000004`; `2^53 + 1` is `2^53` and `2^53 + 3` is `2^53 + 4` (ties
to even); the largest finite value doubled is `Infinity`; half the smallest
positive value is 0 and three halves of it is twice it; `Infinity - Infinity`
and `Infinity * 0` are `NaN`. -/
theorem binary64_examples :
    jsAdd oneTenth (.finite (3602879701896397 * 2 ^ 1020)) =
      .finite (5404319552844596 * 2 ^ 1020) ∧
    jsAdd 9007199254740992 1 = 9007199254740992 ∧
    jsAdd 9007199254740992 3 = 9007199254740996 ∧
    jsMul (.finite ((2 ^ 53 - 1) * 2 ^ 2045)) 2 = .infinity false ∧
    jsMul (.finite 1) (.finite (2 ^ 1073)) = .finite 0 ∧
    jsMul (.finite 3) (.finite (2 ^ 1073)) = .finite 2 ∧
    jsAdd (.infinity false) (.infinity true) = .nan ∧
    jsMul (.infinity false) 0 = .nan := by
  decide!

/-! ## Order total -/

/-- The loop of `GET /orders/:id` computes the exact sum when no step rounds. -/
theorem foldl_total_exact (items : List OrderItem) (acc : Int)
    (hitem : ∀ item ∈ items,
      item.unitPrice.isFinite = true ∧ item.quantity.natAbs < 2 ^ significandBits ∧
        Representable (item.unitPrice.units * item.quantity))
    (hsum : ∀ n, n ≤ items.length → Representable
      (acc + ((items.take n).map (fun item => item.unitPrice.units * item.quantity)).sum)) :
    items.foldl
        (fun total orderItem =>
          jsAdd total (jsMul orderItem.unitPrice (JsNumber.ofInt orderItem.quantity)))
        (.finite acc) =
      .finite (acc + (items.map (fun item => item.unitPrice.units * item.quantity)).sum) := by
  induction items generalizing acc with
  | nil => simp
  | cons item rest ih =>
    obtain ⟨hfinite, hquantity, hproduct⟩ := hitem item (List.mem_cons_self _ _)
    have hfirst := hsum 1 (by simp)
    simp only [List.take_succ_cons, List.take_zero, List.map_cons, List.map_nil, List.sum_cons,
      List.sum_nil, add_zero] at hfirst
    obtain ⟨productId, unitPrice, quantity⟩ := item
    cases unitPrice with
    | infinity negative => cases hfinite
    | nan => cases hfinite
    | finite x =>
      have hunits : (JsNumber.finite x).units = x := rfl
      simp only [hunits] at hproduct hfirst
      simp only [List.foldl_cons, List.map_cons, List.sum_cons, hunits]
      rw [jsMul_exact x quantity hquantity hproduct, jsAdd_exact acc (x * quantity) hfirst,
        ih (acc + x * quantity) (fun it hit => hitem it (List.mem_cons_of_mem _ hit))]
      · rw [add_assoc]
      · intro n hn
        have hnext := hsum (n + 1) (by simpa using hn)
        simp only [List.take_succ_cons, List.map_cons, List.sum_cons, hunits] at hnext
        rw [add_assoc]
        exact hnext

/-- C6 (as stated, refuted): the total is not always the sum of
`unitPrice * quantity`.  The order of `ledger` has the line items
`(9007199254740992, 1)` and `(1, 1)`, both finite; the handler answers with the
total 9007199254740992, and the sum is 9007199254740993. -/
theorem getOrder_total_rounds :
    ¬ (∀ (s : Store) (id : Id) (o : Order),
        s.orders.find? (fun o => o.id == id) = some o →
        (∀ item ∈ o.orderItems, item.unitPrice.isFinite = true) →
        (asyncHandler (getOrder s id)).2 =
          ⟨200, .orderWithTotal o (.finite
            ((o.orderItems.map (fun item => item.unitPrice.units * item.quantity)).sum))⟩) := by
  intro hclaim
  have htotal := hclaim ledger 4 ⟨4, 1, [⟨7, 9007199254740992, 1⟩, ⟨7, 1, 1⟩]⟩
    (by decide!) (by decide!)
  revert htotal
  decide!

/-- Totals of orders with fractional unit prices.  Three units at 0.1 (the
binary64 value `3602879701896397 * 2^(-55)`) give the total
`10808639105689192 * 2^(-55)`, which prints as 0.30000000000000004, while the
sum is `10808639105689191 * 2^(-55)`; three units at 0.5 give exactly 1.5. -/
theorem getOrder_total_fraction :
    (asyncHandler (getOrder fractionLedger 4)).2 =
      ⟨200, .orderWithTotal ⟨4, 1, [⟨7, oneTenth, 3⟩]⟩
        (.finite (10808639105689192 * 2 ^ 1019))⟩ ∧
    oneTenth.units * 3 = 10808639105689191 * 2 ^ 1019 ∧
    (asyncHandler (getOrder fractionLedger 5)).2 =
      ⟨200, .orderWithTotal ⟨5, 1, [⟨7, .finite (2 ^ 1073), 3⟩]⟩ (.finite (3 * 2 ^ 1073))⟩ := by
  decide!

/-- C6 (amended): for an order that the store has under the requested id,
`GET /orders/:id` answers 200 with that order and a total.  When every unit
price is finite, every quantity has fewer than 54 bits, and every product
`unitPrice * quantity` and every running total of the loop is a binary64 value
(so that no step rounds), the total is the sum of `unitPrice * quantity` over
the stored line items.  The total is 0 for an order without line items, and the
answer is the same whatever the product table holds. -/
theorem getOrder_total (s : Store) (id : Id) (o : Order)
    (hfound : s.orders.find? (fun o => o.id == id) = some o) :
    (∃ total, asyncHandler (getOrder s id) = (s, ⟨200, .orderWithTotal o total⟩)) ∧
    ((∀ item ∈ o.orderItems,
        item.unitPrice.isFinite = true ∧ item.quantity.natAbs < 2 ^ significandBits ∧
          Representable (item.unitPrice.units * item.quantity)) →
      (∀ n, n ≤ o.orderItems.length → Representable
        (((o.orderItems.take n).map (fun item => item.unitPrice.units * item.quantity)).sum)) →
      asyncHandler (getOrder s id) =
        (s, ⟨200, .orderWithTotal o (.finite
          ((o.orderItems.map (fun item => item.unitPrice.units * item.quantity)).sum))⟩)) ∧
    (o.orderItems = [] →
      (asyncHandler (getOrder s id)).2 = ⟨200, .orderWithTotal o (.finite 0)⟩) ∧
    (∀ products : List Product,
      (asyncHandler (getOrder { s with products := products } id)).2 =
        (asyncHandler (getOrder s id)).2) := by
  have hzero : JsNumber.ofInt 0 = .finite 0 := by
    have h := ofInt_exact 0 (Nat.two_pow_pos _)
    rw [zero_mul] at h
    exact h
  have hget : ∀ st : Store, st.orders = s.orders →
      asyncHandler (getOrder st id) = (st, ⟨200, .orderWithTotal o
        (o.orderItems.foldl
          (fun total orderItem =>
            jsAdd total (jsMul orderItem.unitPrice (JsNumber.ofInt orderItem.quantity)))
          (.finite 0))⟩) := by
    intro st hst
    unfold getOrder orderFindUniqueOrThrow
    rw [hst, hfound]
    simp only [hzero]
    rfl
  refine ⟨⟨_, hget s rfl⟩, ?_, ?_, ?_⟩
  · intro hitem hsum
    rw [hget s rfl, foldl_total_exact o.orderItems 0 hitem (by simpa using hsum), zero_add]
  · intro hnil
    rw [hget s rfl, hnil]
    rfl
  · intro products
    rw [hget s rfl, hget { s with products := products } rfl]

/-- Witness for C6: order 4 of `archive`, whose line items are `(100, 2)` and
`(30, 3)`; no step of the loop rounds, and the total is 290. -/
theorem getOrder_total_witness :
    archive.orders.find? (fun o => o.id == 4) = some ⟨4, 1, [⟨7, 100, 2⟩, ⟨7, 30, 3⟩]⟩ ∧
    asyncHandler (getOrder archive 4) =
      (archive, ⟨200, .orderWithTotal ⟨4, 1, [⟨7, 100, 2⟩, ⟨7, 30, 3⟩]⟩ 290⟩) :=
  ⟨by decide!,
    ((getOrder_total archive 4 ⟨4, 1, [⟨7, 100, 2⟩, ⟨7, 30, 3⟩]⟩ (by decide!)).2.1
      (by
        intro item hitem
        simp only [List.mem_cons, List.mem_singleton, List.not_mem_nil, or_false] at hitem
        rcases hitem with rfl | rfl
        · exact ⟨by decide!, by decide, representable_of_eq _ 200 (by decide!) (by decide)⟩
        · exact ⟨by decide!, by decide, representable_of_eq _ 90 (by decide!) (by decide)⟩)
      (by
        intro n hn
        have hn2 : n ≤ 2 := hn
        interval_cases n
        · exact representable_of_eq _ 0 (by decide!) (by decide)
        · exact representable_of_eq _ 200 (by decide!) (by decide)
        · exact representable_of_eq _ 290 (by decide!) (by decide))).trans (by decide!)⟩

/-! ## The sufficiency verdict -/

theorem mem_productFindMany (s : Store) (productIds : List Id) (p : Product) :
    p ∈ productFindMany s productIds ↔ p ∈ s.products ∧ p.id ∈ productIds := by
  simp [productFindMany, List.mem_filter]

theorem products_any_of_mem (s : Store) (productId : Id)
    (hproduct : ∃ p ∈ s.products, p.id = productId) :
    s.products.any (fun p => p.id == productId) = true := by
  obtain ⟨p, hp, hid⟩ := hproduct
  rw [List.any_eq_true]
  exact ⟨p, hp, by simp [hid]⟩

theorem getQuantity_of_find (orderItems : List OrderItem) (productId : Id) (item : OrderItem)
    (h : orderItems.find? (fun orderItem => orderItem.productId == productId) = some item) :
    getQuantity orderItems productId = .ok item.quantity := by
  unfold getQuantity
  rw [h]

/-- A line item is found by its own product id when no other line item
precedes it with the same id. -/
theorem find_of_nodup (orderItems : List OrderItem) (item : OrderItem)
    (hnodup : (orderItems.map (fun orderItem => orderItem.productId)).Nodup)
    (hmem : item ∈ orderItems) :
    orderItems.find? (fun orderItem => orderItem.productId == item.productId) = some item := by
  induction orderItems with
  | nil => cases hmem
  | cons first rest ih =>
    rw [List.map_cons, List.nodup_cons] at hnodup
    rcases List.mem_cons.mp hmem with heq | hrest
    · subst heq
      simp
    · have hne : first.productId ≠ item.productId := by
        intro hsame
        apply hnodup.1
        rw [hsame]
        exact List.mem_map_of_mem (fun orderItem => orderItem.productId) hrest
      rw [List.find?_cons_of_neg]
      · exact ih hnodup.2 hrest
      · simpa using hne

/-- The verdict on products that are all named by a line item: it is computed
without an exception, and it is `true` exactly when each product has at least
the stock that the first line item naming it asks for. -/
theorem isSufficientStock_first (orderItems : List OrderItem) (products : List Product)
    (hnamed : ∀ p ∈ products, ∃ item ∈ orderItems, item.productId = p.id) :
    ∃ verdict, isSufficientStock orderItems products = .ok verdict ∧
      (verdict = true ↔ ∀ p ∈ products, ∀ item,
        orderItems.find? (fun orderItem => orderItem.productId == p.id) = some item →
          p.stock ≥ item.quantity) := by
  induction products with
  | nil => exact ⟨true, rfl, by simp⟩
  | cons product rest ih =>
    obtain ⟨verdict, hrest, hiff⟩ := ih (fun p hp => hnamed p (List.mem_cons_of_mem _ hp))
    obtain ⟨named, hnamedMem, hnamedId⟩ := hnamed product (List.mem_cons_self _ _)
    have hsome : (orderItems.find? (fun orderItem => orderItem.productId == product.id)).isSome := by
      rw [List.find?_isSome]
      exact ⟨named, hnamedMem, by simp [hnamedId]⟩
    obtain ⟨first, hfirst⟩ := Option.isSome_iff_exists.mp hsome
    by_cases hstock : product.stock ≥ first.quantity
    · refine ⟨verdict, ?_, ?_⟩
      · rw [isSufficientStock, getQuantity_of_find _ _ _ hfirst]
        simp only [hstock, if_true]
        exact hrest
      · rw [hiff]
        constructor
        · intro hall p hp item hitem
          rcases List.mem_cons.mp hp with heq | hin
          · subst heq
            rw [hfirst] at hitem
            cases hitem
            exact hstock
          · exact hall p hin item hitem
        · intro hall p hp item hitem
          exact hall p (List.mem_cons_of_mem _ hp) item hitem
    · refine ⟨false, ?_, ?_⟩
      · rw [isSufficientStock, getQuantity_of_find _ _ _ hfirst]
        simp only [hstock, if_false]
      · constructor
        · intro hfalse
          cases hfalse
        · intro hall
          exact absurd (hall product (List.mem_cons_self _ _) first hfirst) hstock

/-- The products fetched by the handler are all named by a line item. -/
theorem fetched_named (s : Store) (orderItems : List OrderItem) :
    ∀ p ∈ productFindMany s (orderItems.map (fun orderItem => orderItem.productId)),
      ∃ item ∈ orderItems, item.productId = p.id := by
  intro p hp
  rw [mem_productFindMany] at hp
  obtain ⟨item, hitem, hid⟩ := List.mem_map.mp hp.2
  exact ⟨item, hitem, hid⟩

/-- C4 (as stated, refuted): the verdict is not equivalent to "every line item
has a fetched product with enough stock".  In the store `shop 5` the request
with the single line item for product 9, which no product record matches, gets
the verdict `true`. -/
theorem verdict_ignores_missing_product :
    ¬ (∀ (s : Store) (orderItems : List OrderItem),
        isSufficientStock orderItems
            (productFindMany s (orderItems.map (fun orderItem => orderItem.productId))) = .ok true ↔
          ∀ item ∈ orderItems,
            ∃ p ∈ productFindMany s (orderItems.map (fun orderItem => orderItem.productId)),
              p.id = item.productId ∧ p.stock ≥ item.quantity) := by
  intro hclaim
  have hverdict : isSufficientStock [⟨9, 100, 1⟩]
      (productFindMany (shop 5) (([⟨9, 100, 1⟩] : List OrderItem).map
        (fun orderItem => orderItem.productId))) = .ok true := rfl
  obtain ⟨p, hp, _⟩ := (hclaim (shop 5) [⟨9, 100, 1⟩]).mp hverdict ⟨9, 100, 1⟩ (List.mem_singleton.mpr rfl)
  have hnone : productFindMany (shop 5) (([⟨9, 100, 1⟩] : List OrderItem).map
      (fun orderItem => orderItem.productId)) = [] := by decide
  rw [hnone] at hp
  cases hp

/-- The verdict for line items that name pairwise distinct products. -/
theorem isSufficientStock_distinct (s : Store) (orderItems : List OrderItem)
    (hdistinct : (orderItems.map (fun orderItem => orderItem.productId)).Nodup) :
    ∃ verdict,
      isSufficientStock orderItems
        (productFindMany s (orderItems.map (fun orderItem => orderItem.productId))) = .ok verdict ∧
      (verdict = true ↔
        ∀ item ∈ orderItems,
          ∀ p ∈ productFindMany s (orderItems.map (fun orderItem => orderItem.productId)),
            p.id = item.productId → p.stock ≥ item.quantity) := by
  obtain ⟨verdict, hverdict, hiff⟩ := isSufficientStock_first orderItems
    (productFindMany s (orderItems.map (fun orderItem => orderItem.productId)))
    (fetched_named s orderItems)
  refine ⟨verdict, hverdict, ?_⟩
  rw [hiff]
  constructor
  · intro hall item hitem p hp hid
    apply hall p hp item
    rw [hid]
    exact find_of_nodup orderItems item hdistinct hitem
  · intro hall p hp item hfind
    have hmem : item ∈ orderItems := List.mem_of_find?_eq_some hfind
    have hid : item.productId = p.id := by
      have := List.find?_some hfind
      simpa using this
    exact hall item hmem p hp hid.symm

/-- C4 (amended): for a request whose line items name pairwise distinct
products, the verdict is computed without an exception and is `true` if and
only if every line item whose product id matches a fetched product record asks
for at most that product's stock; a line item whose product id matches no
fetched record has no influence on the verdict. -/
theorem verdict_iff_fetched_sufficient (s : Store) (orderItems : List OrderItem)
    (hdistinct : (orderItems.map (fun orderItem => orderItem.productId)).Nodup) :
    ∃ verdict,
      isSufficientStock orderItems
        (productFindMany s (orderItems.map (fun orderItem => orderItem.productId))) = .ok verdict ∧
      (verdict = true ↔
        ∀ item ∈ orderItems,
          ∀ p ∈ productFindMany s (orderItems.map (fun orderItem => orderItem.productId)),
            p.id = item.productId → p.stock ≥ item.quantity) ∧
      ((∀ item ∈ orderItems, ∀ p ∈ s.products, p.id ≠ item.productId) → verdict = true) := by
  obtain ⟨verdict, hverdict, hiff⟩ := isSufficientStock_distinct s orderItems hdistinct
  refine ⟨verdict, hverdict, hiff, ?_⟩
  intro habsent
  rw [hiff]
  intro item hitem p hp hid
  rw [mem_productFindMany] at hp
  exact absurd hid (habsent item hitem p hp.1)

/-- Witness for C4: line items for product 7 (in stock) and product 9 (no record). -/
theorem verdict_iff_fetched_sufficient_witness :
    ∃ verdict,
      isSufficientStock [⟨7, 100, 3⟩, ⟨9, 10, 4⟩]
        (productFindMany twoProductShop
          (([⟨7, 100, 3⟩, ⟨9, 10, 4⟩] : List OrderItem).map
            (fun orderItem => orderItem.productId))) = .ok verdict ∧
      (verdict = true ↔
        ∀ item ∈ ([⟨7, 100, 3⟩, ⟨9, 10, 4⟩] : List OrderItem),
          ∀ p ∈ productFindMany twoProductShop
              (([⟨7, 100, 3⟩, ⟨9, 10, 4⟩] : List OrderItem).map
                (fun orderItem => orderItem.productId)),
            p.id = item.productId → p.stock ≥ item.quantity) ∧
      ((∀ item ∈ ([⟨7, 100, 3⟩, ⟨9, 10, 4⟩] : List OrderItem),
          ∀ p ∈ twoProductShop.products, p.id ≠ item.productId) → verdict = true) :=
  verdict_iff_fetched_sufficient twoProductShop [⟨7, 100, 3⟩, ⟨9, 10, 4⟩] (by decide)

/-! ## The transaction of `POST /orders` -/

theorem orderCreate_ok (s s1 : Store) (userId : Id) (orderItems : List OrderItem) (o : Order)
    (h : orderCreate s userId orderItems = .ok (s1, o)) :
    o = ⟨freshOrderId s, userId, orderItems⟩ ∧ s1 = { s with orders := s.orders ++ [o] } := by
  unfold orderCreate at h
  split_ifs at h
  simp only [Except.ok.injEq, Prod.mk.injEq] at h
  obtain ⟨hs, ho⟩ := h
  subst ho
  exact ⟨rfl, hs.symm⟩

theorem productUpdate_ok (s s1 : Store) (productId : Id) (decrement : Int)
    (h : productUpdate s productId decrement = .ok s1) :
    s1 = { s with products := s.products.map (fun p =>
      if p.id == productId then { p with stock := p.stock - decrement } else p) } := by
  unfold productUpdate at h
  split_ifs at h
  simp only [Except.ok.injEq] at h
  exact h.symm

/-- The stock updates touch the product table only. -/
theorem runUpdates_frame (updates : List (Id × Int)) (s s1 : Store)
    (h : runUpdates s updates = .ok s1) :
    s1.users = s.users ∧ s1.orders = s.orders ∧ s1.savedProducts = s.savedProducts := by
  induction updates generalizing s with
  | nil =>
    simp only [runUpdates, Except.ok.injEq] at h
    subst h
    exact ⟨rfl, rfl, rfl⟩
  | cons update rest ih =>
    obtain ⟨productId, decrement⟩ := update
    simp only [runUpdates] at h
    cases hupd : productUpdate s productId decrement with
    | error e => rw [hupd] at h; cases h
    | ok s2 =>
      rw [hupd] at h
      have hframe := ih s2 h
      have hs2 := productUpdate_ok s s2 productId decrement hupd
      rw [hs2] at hframe
      exact hframe

/-- A request to `POST /orders` that is answered without an exception went
through every step of the handler. -/
theorem postOrders_ok (s : Store) (body : CreateOrderBody) (res : Response)
    (hok : (postOrders s body).2 = .ok res) :
    ∃ updates s1 o,
      validCreateOrder body = true ∧
      isSufficientStock body.orderItems
        (productFindMany s (body.orderItems.map (fun orderItem => orderItem.productId))) = .ok true ∧
      queryPromises body.orderItems
        (body.orderItems.map (fun orderItem => orderItem.productId)) = .ok updates ∧
      transaction s body.userId body.orderItems updates = .ok (s1, o) ∧
      postOrders s body = (s1, .ok ⟨201, .order o⟩) := by
  have hvalid : validCreateOrder body = true := by
    by_contra hnot
    have hfalse : validCreateOrder body = false := by simpa using hnot
    simp [postOrders, hfalse] at hok
  cases hverdict : isSufficientStock body.orderItems
      (productFindMany s (body.orderItems.map (fun orderItem => orderItem.productId))) with
  | error e => simp [postOrders, hvalid, hverdict] at hok
  | ok verdict =>
    cases verdict with
    | false => simp [postOrders, hvalid, hverdict] at hok
    | true =>
      cases hupdates : queryPromises body.orderItems
          (body.orderItems.map (fun orderItem => orderItem.productId)) with
      | error e => simp [postOrders, hvalid, hverdict, hupdates] at hok
      | ok updates =>
        cases htx : transaction s body.userId body.orderItems updates with
        | error e => simp [postOrders, hvalid, hverdict, hupdates, htx] at hok
        | ok pair =>
          obtain ⟨s1, o⟩ := pair
          refine ⟨updates, s1, o, hvalid, rfl, rfl, htx, ?_⟩
          simp [postOrders, hvalid, hverdict, hupdates, htx]

theorem transaction_ok (s s2 : Store) (userId : Id) (orderItems : List OrderItem)
    (updates : List (Id × Int)) (o : Order)
    (h : transaction s userId orderItems updates = .ok (s2, o)) :
    o = ⟨freshOrderId s, userId, orderItems⟩ ∧
    runUpdates { s with orders := s.orders ++ [o] } updates = .ok s2 := by
  unfold transaction at h
  cases hcreate : orderCreate s userId orderItems with
  | error e => rw [hcreate] at h; cases h
  | ok pair =>
    obtain ⟨s1, o1⟩ := pair
    rw [hcreate] at h
    obtain ⟨ho1, hs1⟩ := orderCreate_ok s s1 userId orderItems o1 hcreate
    simp only at h
    cases hrun : runUpdates s1 updates with
    | error e => rw [hrun] at h; cases h
    | ok s3 =>
      rw [hrun] at h
      simp only [Except.ok.injEq, Prod.mk.injEq] at h
      obtain ⟨h3, ho⟩ := h
      subst h3 ho
      refine ⟨ho1, ?_⟩
      rw [← hs1]
      exact hrun

theorem decrementFor_cons (productId target : Id) (decrement : Int) (rest : List (Id × Int)) :
    decrementFor ((productId, decrement) :: rest) target =
      (if productId = target then decrement else 0) + decrementFor rest target := by
  unfold decrementFor
  by_cases h : productId = target
  · simp [List.filter_cons, h]
  · simp [List.filter_cons, h]

/-- Effect of the stock updates on the product table: every product loses the
sum of the decrements addressed to its id. -/
theorem runUpdates_products (updates : List (Id × Int)) (s s1 : Store)
    (h : runUpdates s updates = .ok s1) :
    s1.products = s.products.map (fun p =>
      ({ p with stock := p.stock - decrementFor updates p.id } : Product)) := by
  induction updates generalizing s with
  | nil =>
    simp only [runUpdates, Except.ok.injEq] at h
    subst h
    have hid : (fun p : Product =>
        ({ p with stock := p.stock - decrementFor [] p.id } : Product)) = id := by
      funext p
      simp [decrementFor]
    rw [hid, List.map_id]
  | cons update rest ih =>
    obtain ⟨productId, decrement⟩ := update
    simp only [runUpdates] at h
    cases hupd : productUpdate s productId decrement with
    | error e => rw [hupd] at h; cases h
    | ok s2 =>
      rw [hupd] at h
      have hrest := ih s2 h
      have hs2 := productUpdate_ok s s2 productId decrement hupd
      rw [hrest, hs2]
      simp only [List.map_map]
      apply List.map_congr_left
      intro p _
      simp only [Function.comp_apply, decrementFor_cons]
      by_cases hid : p.id = productId
      · have hid2 : productId = p.id := hid.symm
        simp only [hid, beq_self_eq_true, if_true]
        congr 1
        ring
      · have hid2 : ¬ productId = p.id := fun h => hid h.symm
        have hbeq : (p.id == productId) = false := by simpa using hid
        simp only [hbeq, hid2, if_false, zero_add]
        rfl

/-- The stock updates succeed when each of them addresses a product of the store. -/
theorem runUpdates_succeeds (updates : List (Id × Int)) (s : Store)
    (hpresent : ∀ update ∈ updates, ∃ p ∈ s.products, p.id = update.1) :
    ∃ s1, runUpdates s updates = .ok s1 := by
  induction updates generalizing s with
  | nil => exact ⟨s, rfl⟩
  | cons update rest ih =>
    obtain ⟨productId, decrement⟩ := update
    have hany : s.products.any (fun p => p.id == productId) = true :=
      products_any_of_mem s productId (hpresent (productId, decrement) (List.mem_cons_self _ _))
    have hupd : productUpdate s productId decrement =
        .ok { s with products := s.products.map (fun p =>
          if p.id == productId then { p with stock := p.stock - decrement } else p) } := by
      unfold productUpdate
      simp [hany]
    simp only [runUpdates, hupd]
    apply ih
    intro update hupdate
    obtain ⟨p, hp, hid⟩ := hpresent update (List.mem_cons_of_mem _ hupdate)
    by_cases hsame : p.id = productId
    · refine ⟨{ p with stock := p.stock - decrement }, ?_, hid⟩
      apply List.mem_map.mpr
      exact ⟨p, hp, by simp [hsame]⟩
    · refine ⟨p, ?_, hid⟩
      apply List.mem_map.mpr
      exact ⟨p, hp, by simp [hsame]⟩

/-- With pairwise distinct product ids, `queryPromises` pairs every line item
with its own quantity. -/
theorem queryPromises_distinct (orderItems : List OrderItem)
    (hdistinct : (orderItems.map (fun orderItem => orderItem.productId)).Nodup) :
    queryPromises orderItems (orderItems.map (fun orderItem => orderItem.productId)) =
      .ok (orderItems.map (fun orderItem => (orderItem.productId, orderItem.quantity))) := by
  have hgen : ∀ items : List OrderItem, (∀ item ∈ items, item ∈ orderItems) →
      queryPromises orderItems (items.map (fun orderItem => orderItem.productId)) =
        .ok (items.map (fun orderItem => (orderItem.productId, orderItem.quantity))) := by
    intro items
    induction items with
    | nil => intro _; rfl
    | cons item rest ih =>
      intro hsub
      have hfind := find_of_nodup orderItems item hdistinct (hsub item (List.mem_cons_self _ _))
      have hrest := ih (fun it hit => hsub it (List.mem_cons_of_mem _ hit))
      simp only [List.map_cons, queryPromises, getQuantity_of_find _ _ _ hfind, hrest]
  exact hgen orderItems (fun _ h => h)

theorem decrementFor_items (orderItems : List OrderItem) (productId : Id) :
    decrementFor (orderItems.map (fun orderItem => (orderItem.productId, orderItem.quantity)))
      productId = requestedQuantity orderItems productId := by
  induction orderItems with
  | nil => rfl
  | cons item rest ih =>
    rw [List.map_cons, decrementFor_cons, ih]
    unfold requestedQuantity
    by_cases h : item.productId = productId
    · simp [List.filter_cons, h]
    · simp [List.filter_cons, h]

theorem requestedQuantity_absent (orderItems : List OrderItem) (productId : Id)
    (habsent : productId ∉ orderItems.map (fun orderItem => orderItem.productId)) :
    requestedQuantity orderItems productId = 0 := by
  unfold requestedQuantity
  have hnil : orderItems.filter (fun orderItem => orderItem.productId == productId) = [] := by
    rw [List.filter_eq_nil_iff]
    intro item hitem hsame
    apply habsent
    have hid : item.productId = productId := by simpa using hsame
    rw [← hid]
    exact List.mem_map_of_mem (fun orderItem => orderItem.productId) hitem
  rw [hnil]
  rfl

theorem requestedQuantity_distinct (orderItems : List OrderItem) (item : OrderItem)
    (hdistinct : (orderItems.map (fun orderItem => orderItem.productId)).Nodup)
    (hmem : item ∈ orderItems) :
    requestedQuantity orderItems item.productId = item.quantity := by
  induction orderItems with
  | nil => cases hmem
  | cons first rest ih =>
    rw [List.map_cons, List.nodup_cons] at hdistinct
    rcases List.mem_cons.mp hmem with heq | hrest
    · subst heq
      have hzero := requestedQuantity_absent rest item.productId hdistinct.1
      unfold requestedQuantity at hzero ⊢
      simp [List.filter_cons, hzero]
    · have hne : first.productId ≠ item.productId := by
        intro hsame
        apply hdistinct.1
        rw [hsame]
        exact List.mem_map_of_mem (fun orderItem => orderItem.productId) hrest
      have hrec := ih hdistinct.2 hrest
      unfold requestedQuantity at hrec ⊢
      simp [List.filter_cons, hne, hrec]

/-- The stock updates that `queryPromises` builds: one per line item, each
with the quantity of the first line item that names the same product. -/
theorem queryPromises_first (orderItems : List OrderItem) :
    queryPromises orderItems (orderItems.map (fun orderItem => orderItem.productId)) =
      .ok ((orderItems.map (fun orderItem => orderItem.productId)).map
        (fun productId => (productId, firstQuantity orderItems productId))) := by
  have hgen : ∀ productIds : List Id,
      (∀ productId ∈ productIds, ∃ item ∈ orderItems, item.productId = productId) →
      queryPromises orderItems productIds =
        .ok (productIds.map (fun productId => (productId, firstQuantity orderItems productId))) := by
    intro productIds
    induction productIds with
    | nil => intro _; rfl
    | cons productId rest ih =>
      intro hnamed
      obtain ⟨named, hmem, hid⟩ := hnamed productId (List.mem_cons_self _ _)
      have hsome : (orderItems.find?
          (fun orderItem => orderItem.productId == productId)).isSome := by
        rw [List.find?_isSome]
        exact ⟨named, hmem, by simp [hid]⟩
      obtain ⟨first, hfirst⟩ := Option.isSome_iff_exists.mp hsome
      have hq : firstQuantity orderItems productId = first.quantity := by
        unfold firstQuantity
        rw [hfirst]
      have hrest := ih (fun id hin => hnamed id (List.mem_cons_of_mem _ hin))
      simp only [List.map_cons, queryPromises, getQuantity_of_find _ _ _ hfirst, hrest, hq]
  apply hgen
  intro productId hin
  obtain ⟨item, hitem, hid⟩ := List.mem_map.mp hin
  exact ⟨item, hitem, hid⟩

theorem decrementFor_map (productIds : List Id) (quantity : Id → Int) (target : Id) :
    decrementFor (productIds.map (fun productId => (productId, quantity productId))) target =
      (productIds.count target : Int) * quantity target := by
  induction productIds with
  | nil => simp [decrementFor]
  | cons productId rest ih =>
    rw [List.map_cons, decrementFor_cons, ih]
    by_cases h : productId = target
    · subst h
      simp only [if_true, List.count_cons_self]
      push_cast
      ring
    · rw [if_neg h, List.count_cons_of_ne (fun heq => h heq.symm)]
      ring

/-- What a successful `POST /orders` does to the product table: every product
loses the quantity of the first line item naming it, once for each line item
that names it. -/
theorem postOrders_ok_products (s : Store) (body : CreateOrderBody) (res : Response)
    (hok : (postOrders s body).2 = .ok res) :
    (postOrders s body).1.products = s.products.map (fun p =>
      ({ p with stock := p.stock -
          ((body.orderItems.map (fun orderItem => orderItem.productId)).count p.id : Int) *
            firstQuantity body.orderItems p.id } : Product)) := by
  obtain ⟨updates, s1, o, _, _, hupdates, htx, hpost⟩ := postOrders_ok s body res hok
  obtain ⟨_, hrun⟩ := transaction_ok s s1 body.userId body.orderItems updates o htx
  rw [queryPromises_first] at hupdates
  simp only [Except.ok.injEq] at hupdates
  subst hupdates
  rw [hpost]
  simp only
  rw [runUpdates_products _ _ s1 hrun]
  apply List.map_congr_left
  intro p _
  rw [decrementFor_map]

/-- A request to `POST /orders` that ends in an exception leaves the store as
it was: every `throw` of the handler precedes the transaction, and a failed
transaction is rolled back. -/
theorem postOrders_error_store (s : Store) (body : CreateOrderBody) (e : JsError)
    (herr : (postOrders s body).2 = .error e) :
    (postOrders s body).1 = s := by
  by_cases hvalid : validCreateOrder body = false
  · simp [postOrders, hvalid]
  · cases hverdict : isSufficientStock body.orderItems
        (productFindMany s (body.orderItems.map (fun orderItem => orderItem.productId))) with
    | error e1 => simp [postOrders, hvalid, hverdict]
    | ok verdict =>
      cases verdict with
      | false => simp [postOrders, hvalid, hverdict]
      | true =>
        cases hupdates : queryPromises body.orderItems
            (body.orderItems.map (fun orderItem => orderItem.productId)) with
        | error e1 => simp [postOrders, hvalid, hverdict, hupdates]
        | ok updates =>
          cases htx : transaction s body.userId body.orderItems updates with
          | error e1 => simp [postOrders, hvalid, hverdict, hupdates, htx]
          | ok pair =>
            simp [postOrders, hvalid, hverdict, hupdates, htx] at herr

/-- For pairwise distinct product ids: when the user exists, every line item
names a product of the store and no line item asks for more than the stock of
its product, the order is created, every product loses the quantity requested
for it, and nothing else in the store changes. -/
theorem postOrders_distinct_success (s : Store) (body : CreateOrderBody)
    (hvalid : validCreateOrder body = true)
    (hdistinct : (body.orderItems.map (fun orderItem => orderItem.productId)).Nodup)
    (huser : ∃ u ∈ s.users, u.id = body.userId)
    (hpresent : ∀ item ∈ body.orderItems, ∃ p ∈ s.products, p.id = item.productId)
    (hstock : ∀ item ∈ body.orderItems, ∀ p ∈ s.products,
      p.id = item.productId → p.stock ≥ item.quantity) :
    postOrders s body =
      ({ s with
          orders := s.orders ++ [⟨freshOrderId s, body.userId, body.orderItems⟩],
          products := s.products.map (fun p =>
            ({ p with stock := p.stock - requestedQuantity body.orderItems p.id } : Product)) },
        .ok ⟨201, .order ⟨freshOrderId s, body.userId, body.orderItems⟩⟩) := by
  obtain ⟨verdict, hverdict, hiff⟩ := isSufficientStock_distinct s body.orderItems hdistinct
  have htrue : verdict = true := by
    rw [hiff]
    intro item hitem p hp hid
    rw [mem_productFindMany] at hp
    exact hstock item hitem p hp.1 hid
  subst htrue
  have hupdates := queryPromises_distinct body.orderItems hdistinct
  have husers : s.users.any (fun u => u.id == body.userId) = true := by
    obtain ⟨u, hu, hid⟩ := huser
    rw [List.any_eq_true]
    exact ⟨u, hu, by simp [hid]⟩
  have hall : body.orderItems.all (fun orderItem =>
      s.products.any (fun p => p.id == orderItem.productId)) = true := by
    rw [List.all_eq_true]
    intro item hitem
    exact products_any_of_mem s item.productId (hpresent item hitem)
  have hcreate : orderCreate s body.userId body.orderItems =
      .ok ({ s with orders := s.orders ++ [⟨freshOrderId s, body.userId, body.orderItems⟩] },
        ⟨freshOrderId s, body.userId, body.orderItems⟩) := by
    unfold orderCreate
    simp [husers, hall]
  obtain ⟨s1, hrun⟩ := runUpdates_succeeds
    (body.orderItems.map (fun orderItem => (orderItem.productId, orderItem.quantity)))
    { s with orders := s.orders ++ [⟨freshOrderId s, body.userId, body.orderItems⟩] }
    (by
      intro update hupdate
      obtain ⟨item, hitem, hpair⟩ := List.mem_map.mp hupdate
      rw [← hpair]
      exact hpresent item hitem)
  have hproducts := runUpdates_products _ _ s1 hrun
  have hframe := runUpdates_frame _ _ s1 hrun
  have hs1 : s1 = { s with
      orders := s.orders ++ [⟨freshOrderId s, body.userId, body.orderItems⟩],
      products := s.products.map (fun p =>
        ({ p with stock := p.stock - requestedQuantity body.orderItems p.id } : Product)) } := by
    obtain ⟨users1, products1, orders1, saved1⟩ := s1
    simp only at hproducts hframe
    obtain ⟨hu, ho, hsv⟩ := hframe
    subst hu ho hsv hproducts
    simp only [decrementFor_items]
  subst hs1
  simp [postOrders, hvalid, hverdict, hupdates, transaction, hcreate, hrun]

/-- For pairwise distinct product ids: a request with a line item that asks
for more than the stock of its product ends in an exception and leaves the
store as it was. -/
theorem postOrders_distinct_insufficient (s : Store) (body : CreateOrderBody)
    (hdistinct : (body.orderItems.map (fun orderItem => orderItem.productId)).Nodup)
    (hshort : ∃ item ∈ body.orderItems, ∃ p ∈ s.products,
      p.id = item.productId ∧ p.stock < item.quantity) :
    (postOrders s body).1 = s ∧ ∃ e, (postOrders s body).2 = .error e := by
  obtain ⟨verdict, hverdict, hiff⟩ := isSufficientStock_distinct s body.orderItems hdistinct
  have hfalse : verdict = false := by
    cases verdict with
    | false => rfl
    | true =>
      obtain ⟨item, hitem, p, hp, hid, hlt⟩ := hshort
      have hfetched : p ∈ productFindMany s
          (body.orderItems.map (fun orderItem => orderItem.productId)) := by
        rw [mem_productFindMany, hid]
        exact ⟨hp, List.mem_map_of_mem (fun orderItem => orderItem.productId) hitem⟩
      have hge := hiff.mp rfl item hitem p hfetched hid
      exact absurd hge (not_le.mpr hlt)
  subst hfalse
  by_cases hvalid : validCreateOrder body = false
  · exact ⟨by simp [postOrders, hvalid], structError, by simp [postOrders, hvalid]⟩
  · exact ⟨by simp [postOrders, hvalid, hverdict], insufficientStockError,
      by simp [postOrders, hvalid, hverdict]⟩

/-- For pairwise distinct product ids, non-negative stock is preserved by
`POST /orders`, whether the request succeeds or fails. -/
theorem postOrders_distinct_nonneg (s : Store) (body : CreateOrderBody)
    (hdistinct : (body.orderItems.map (fun orderItem => orderItem.productId)).Nodup)
    (hnonneg : ∀ p ∈ s.products, 0 ≤ p.stock) :
    ∀ p ∈ (postOrders s body).1.products, 0 ≤ p.stock := by
  cases hres : (postOrders s body).2 with
  | error e =>
    rw [postOrders_error_store s body e hres]
    exact hnonneg
  | ok res =>
    obtain ⟨updates, s1, o, _, hverdict, hupdates, htx, hpost⟩ := postOrders_ok s body res hres
    obtain ⟨_, hrun⟩ := transaction_ok s s1 body.userId body.orderItems updates o htx
    rw [queryPromises_distinct body.orderItems hdistinct] at hupdates
    simp only [Except.ok.injEq] at hupdates
    subst hupdates
    have hproducts := runUpdates_products _ _ s1 hrun
    obtain ⟨verdict, hverdict2, hiff⟩ := isSufficientStock_distinct s body.orderItems hdistinct
    rw [hverdict] at hverdict2
    simp only [Except.ok.injEq] at hverdict2
    subst hverdict2
    have hsufficient := hiff.mp rfl
    rw [hpost]
    intro q hq
    simp only at hq
    rw [hproducts] at hq
    obtain ⟨p, hp, hqp⟩ := List.mem_map.mp hq
    rw [← hqp]
    simp only [decrementFor_items]
    by_cases hnamed : p.id ∈ body.orderItems.map (fun orderItem => orderItem.productId)
    · obtain ⟨item, hitem, hid⟩ := List.mem_map.mp hnamed
      have hfetched : p ∈ productFindMany s
          (body.orderItems.map (fun orderItem => orderItem.productId)) := by
        rw [mem_productFindMany]
        exact ⟨hp, hnamed⟩
      have hge := hsufficient item hitem p hfetched hid.symm
      have hq := requestedQuantity_distinct body.orderItems item hdistinct hitem
      have hid2 : item.productId = p.id := hid
      rw [← hid2, hq]
      exact sub_nonneg.mpr hge
    · rw [requestedQuantity_absent body.orderItems p.id hnamed, sub_zero]
      exact hnonneg p hp

/-- The scenario of the spec: product 7 has stock 5; an order for 3 is created
and leaves stock 2; a second order for 3 is refused with status 500 and the
store stays as the first order left it. -/
theorem order_scenario :
    (asyncHandler (postOrders (shop 5) ⟨1, [⟨7, 100, 3⟩]⟩)).2.status = 201 ∧
    (asyncHandler (postOrders (shop 5) ⟨1, [⟨7, 100, 3⟩]⟩)).1.products = [⟨7, 100, 2⟩] ∧
    asyncHandler (postOrders (asyncHandler (postOrders (shop 5) ⟨1, [⟨7, 100, 3⟩]⟩)).1
        ⟨1, [⟨7, 100, 3⟩]⟩) =
      ((asyncHandler (postOrders (shop 5) ⟨1, [⟨7, 100, 3⟩]⟩)).1,
        ⟨500, .message "Insufficient Stock"⟩) := by
  decide!

/-! ## Unit price of a stored line item -/

/-- C5 (as stated, refuted): the unit price stored on a line item is not the
price of the product.  In `shop 5` product 7 costs 100; the request with the
line item `{ productId: 7, unitPrice: 1, quantity: 3 }` is answered 201 and the
stored line item has unit price 1. -/
theorem unit_price_not_product_price :
    ¬ (∀ (s s1 : Store) (body : CreateOrderBody) (o : Order),
        postOrders s body = (s1, .ok ⟨201, .order o⟩) →
        ∀ item ∈ o.orderItems, ∀ p ∈ s.products,
          p.id = item.productId → item.unitPrice = p.price) := by
  intro hclaim
  have hrun : postOrders (shop 5) ⟨1, [⟨7, 1, 3⟩]⟩ =
      (⟨[⟨1⟩], [⟨7, 100, 2⟩], [⟨1, 1, [⟨7, 1, 3⟩]⟩], []⟩,
        .ok ⟨201, .order ⟨1, 1, [⟨7, 1, 3⟩]⟩⟩) := rfl
  have hprice := hclaim _ _ _ _ hrun ⟨7, 1, 3⟩ (List.mem_singleton.mpr rfl)
    ⟨7, 100, 5⟩ (List.mem_singleton.mpr rfl) rfl
  revert hprice
  decide!

/-- C5 (amended): for every request to `POST /orders` that succeeds, the
response is 201 with the created order, the order is appended to the order
table, and its line items are the line items of the request body as they were
sent; so the unit price stored on each line item is the `unitPrice` that the
request carried for it. -/
theorem line_items_stored_as_sent (s : Store) (body : CreateOrderBody) (res : Response)
    (hok : (postOrders s body).2 = .ok res) :
    ∃ o, res = ⟨201, .order o⟩ ∧
      o.orderItems = body.orderItems ∧
      (postOrders s body).1.orders = s.orders ++ [o] := by
  obtain ⟨updates, s1, o, _, _, _, htx, hpost⟩ := postOrders_ok s body res hok
  obtain ⟨ho, hrun⟩ := transaction_ok s s1 body.userId body.orderItems updates o htx
  have hframe := runUpdates_frame updates _ s1 hrun
  rw [hpost] at hok ⊢
  simp only [Except.ok.injEq] at hok
  refine ⟨o, hok.symm, ?_, ?_⟩
  · rw [ho]
  · exact hframe.2.1

/-- Witness for C5: the order of `shop 5` whose line item carries unit price 1. -/
theorem line_items_stored_as_sent_witness :
    ∃ o, (⟨201, .order ⟨1, 1, [⟨7, 1, 3⟩]⟩⟩ : Response) = ⟨201, .order o⟩ ∧
      o.orderItems = (⟨1, [⟨7, 1, 3⟩]⟩ : CreateOrderBody).orderItems ∧
      (postOrders (shop 5) ⟨1, [⟨7, 1, 3⟩]⟩).1.orders = (shop 5).orders ++ [o] :=
  line_items_stored_as_sent (shop 5) ⟨1, [⟨7, 1, 3⟩]⟩ ⟨201, .order ⟨1, 1, [⟨7, 1, 3⟩]⟩⟩ rfl

/-! ## Several line items for one product -/

/-- C1: evaluation at a request with two line items for product 7, of
quantities 1 and 10, against a stock of 20.  The request is valid, the product
exists and its stock covers each line item and their sum, and the order is
created (201); the stock afterwards is 18, whereas the stock before minus the
sum of the quantities is 9. -/
theorem duplicate_items_stock_after :
    validCreateOrder ⟨1, [⟨7, 100, 1⟩, ⟨7, 100, 10⟩]⟩ = true ∧
    requestedQuantity [⟨7, 100, 1⟩, ⟨7, 100, 10⟩] 7 = 11 ∧
    stockOf (shop 20) 7 = some 20 ∧
    (asyncHandler (postOrders (shop 20) ⟨1, [⟨7, 100, 1⟩, ⟨7, 100, 10⟩]⟩)).2.status = 201 ∧
    stockOf (asyncHandler (postOrders (shop 20) ⟨1, [⟨7, 100, 1⟩, ⟨7, 100, 10⟩]⟩)).1 7 = some 18 ∧
    stockOf (asyncHandler (postOrders (shop 20) ⟨1, [⟨7, 100, 1⟩, ⟨7, 100, 10⟩]⟩)).1 7 ≠
      some (20 - requestedQuantity [⟨7, 100, 1⟩, ⟨7, 100, 10⟩] 7) := by
  decide

/-- C2: evaluation at a request with two line items for product 7, of
quantities 1 and 10, against a stock of 5.  The second line item asks for more
than the stock, yet the request is answered 201, an order with both line items
is stored and the stock becomes 3. -/
theorem duplicate_items_excess_accepted :
    stockOf (shop 5) 7 = some 5 ∧
    (asyncHandler (postOrders (shop 5) ⟨1, [⟨7, 100, 1⟩, ⟨7, 100, 10⟩]⟩)).2 =
      ⟨201, .order ⟨1, 1, [⟨7, 100, 1⟩, ⟨7, 100, 10⟩]⟩⟩ ∧
    (asyncHandler (postOrders (shop 5) ⟨1, [⟨7, 100, 1⟩, ⟨7, 100, 10⟩]⟩)).1.orders =
      [⟨1, 1, [⟨7, 100, 1⟩, ⟨7, 100, 10⟩]⟩] ∧
    stockOf (asyncHandler (postOrders (shop 5) ⟨1, [⟨7, 100, 1⟩, ⟨7, 100, 10⟩]⟩)).1 7 = some 3 ∧
    (asyncHandler (postOrders (shop 5) ⟨1, [⟨7, 100, 1⟩, ⟨7, 100, 10⟩]⟩)).1 ≠ shop 5 := by
  decide!

/-- C3: evaluation at a request with two line items for product 7, of quantity
3 each, against a stock of 5.  Every stock is non-negative before and every
quantity is positive; the request is answered 201 and the stock of product 7
afterwards is -1. -/
theorem duplicate_items_negative_stock :
    (∀ p ∈ (shop 5).products, 0 ≤ p.stock) ∧
    validCreateOrder ⟨1, [⟨7, 100, 3⟩, ⟨7, 100, 3⟩]⟩ = true ∧
    (asyncHandler (postOrders (shop 5) ⟨1, [⟨7, 100, 3⟩, ⟨7, 100, 3⟩]⟩)).2.status = 201 ∧
    (asyncHandler (postOrders (shop 5) ⟨1, [⟨7, 100, 3⟩, ⟨7, 100, 3⟩]⟩)).1.products =
      [⟨7, 100, -1⟩] ∧
    ¬ (∀ p ∈ (asyncHandler (postOrders (shop 5) ⟨1, [⟨7, 100, 3⟩, ⟨7, 100, 3⟩]⟩)).1.products,
        0 ≤ p.stock) := by
  decide!

/-! ## The saved-product toggle -/

theorem mem_savedProductsOf (s : Store) (userId : Id) (q : Product) :
    q ∈ savedProductsOf s userId ↔ q ∈ s.products ∧ (userId, q.id) ∈ s.savedProducts := by
  simp [savedProductsOf, List.mem_filter]

/-- For a product of the store, the lookup of line 114 returns a non-empty
array exactly when the edge is in the join table. -/
theorem lookup_length_pos (s : Store) (userId productId : Id)
    (hproduct : ∃ p ∈ s.products, p.id = productId) :
    ((savedProductsOf s userId).filter (fun p => p.id == productId)).length > 0 ↔
      (userId, productId) ∈ s.savedProducts := by
  rw [gt_iff_lt, List.length_pos_iff_exists_mem]
  constructor
  · rintro ⟨q, hq⟩
    rw [List.mem_filter, mem_savedProductsOf] at hq
    have hid : q.id = productId := by simpa using hq.2
    rw [← hid]
    exact hq.1.2
  · intro hedge
    obtain ⟨p, hp, hid⟩ := hproduct
    refine ⟨p, ?_⟩
    rw [List.mem_filter, mem_savedProductsOf]
    refine ⟨⟨hp, ?_⟩, by simp [hid]⟩
    rw [hid]
    exact hedge

theorem users_any_of_find (s : Store) (userId : Id) (u : User)
    (huser : userFindUnique s userId = some u) :
    s.users.any (fun u => u.id == userId) = true := by
  unfold userFindUnique at huser
  rw [List.any_eq_true]
  have hid : u.id = userId := by
    have hfound := List.find?_some huser
    simpa using hfound
  exact ⟨u, List.mem_of_find?_eq_some huser, by simp [hid]⟩

/-- What the toggle handler does for an existing user and an existing product. -/
theorem postSavedProducts_eval (s : Store) (userId productId : Id) (u : User)
    (huser : userFindUnique s userId = some u)
    (hproduct : ∃ p ∈ s.products, p.id = productId) :
    postSavedProducts s userId ⟨some productId⟩ =
      (toggleEdge s userId productId,
        .ok ⟨200, .products (savedProductsOf (toggleEdge s userId productId) userId)⟩) := by
  have husers := users_any_of_find s userId u huser
  have hproducts := products_any_of_mem s productId hproduct
  have hlookup := lookup_length_pos s userId productId hproduct
  unfold postSavedProducts
  simp only [huser]
  by_cases hedge : (userId, productId) ∈ s.savedProducts
  · have hpos := hlookup.mpr hedge
    simp [hpos, userUpdateSavedProducts, husers, toggleEdge, hedge]
  · have hnot : ¬ ((savedProductsOf s userId).filter (fun p => p.id == productId)).length > 0 :=
      fun hpos => hedge (hlookup.mp hpos)
    simp [hnot, userUpdateSavedProducts, husers, hproducts, toggleEdge, hedge]

theorem toggleEdge_frame (s : Store) (userId productId : Id) :
    (toggleEdge s userId productId).users = s.users ∧
    (toggleEdge s userId productId).products = s.products ∧
    (toggleEdge s userId productId).orders = s.orders := by
  unfold toggleEdge
  split_ifs <;> exact ⟨rfl, rfl, rfl⟩

theorem mem_toggleEdge_of_mem (s : Store) (userId productId : Id) (e : Id × Id)
    (hedge : (userId, productId) ∈ s.savedProducts) :
    e ∈ (toggleEdge s userId productId).savedProducts ↔
      e ∈ s.savedProducts ∧ e ≠ (userId, productId) := by
  unfold toggleEdge
  rw [if_pos hedge]
  simp [List.mem_filter]

theorem mem_toggleEdge_of_not_mem (s : Store) (userId productId : Id) (e : Id × Id)
    (hedge : (userId, productId) ∉ s.savedProducts) :
    e ∈ (toggleEdge s userId productId).savedProducts ↔
      e ∈ s.savedProducts ∨ e = (userId, productId) := by
  unfold toggleEdge
  rw [if_neg hedge]
  simp

/-- Two toggles of one edge leave the join table with the edges it had. -/
theorem mem_toggleEdge_twice (s : Store) (userId productId : Id) (e : Id × Id) :
    e ∈ (toggleEdge (toggleEdge s userId productId) userId productId).savedProducts ↔
      e ∈ s.savedProducts := by
  by_cases hedge : (userId, productId) ∈ s.savedProducts
  · have hgone : (userId, productId) ∉ (toggleEdge s userId productId).savedProducts := by
      rw [mem_toggleEdge_of_mem s userId productId _ hedge]
      exact fun h => h.2 rfl
    rw [mem_toggleEdge_of_not_mem _ userId productId e hgone,
      mem_toggleEdge_of_mem s userId productId e hedge]
    constructor
    · rintro (h | h)
      · exact h.1
      · rw [h]; exact hedge
    · intro h
      by_cases he : e = (userId, productId)
      · exact Or.inr he
      · exact Or.inl ⟨h, he⟩
  · have hthere : (userId, productId) ∈ (toggleEdge s userId productId).savedProducts := by
      rw [mem_toggleEdge_of_not_mem s userId productId _ hedge]
      exact Or.inr rfl
    rw [mem_toggleEdge_of_mem _ userId productId e hthere,
      mem_toggleEdge_of_not_mem s userId productId e hedge]
    constructor
    · rintro ⟨h | h, hne⟩
      · exact h
      · exact absurd h hne
    · intro h
      refine ⟨Or.inl h, ?_⟩
      intro he
      rw [he] at h
      exact hedge h

/-- The saved products of a user depend on the join table through membership only. -/
theorem savedProductsOf_congr (s t : Store) (userId : Id)
    (hproducts : t.products = s.products)
    (hedges : ∀ e, e ∈ t.savedProducts ↔ e ∈ s.savedProducts) :
    savedProductsOf t userId = savedProductsOf s userId := by
  unfold savedProductsOf
  rw [hproducts]
  apply List.filter_congr
  intro p _
  have h := hedges (userId, p.id)
  by_cases hin : (userId, p.id) ∈ s.savedProducts
  · simp [hin, h.mpr hin]
  · have hnot : (userId, p.id) ∉ t.savedProducts := fun ht => hin (h.mp ht)
    simp [hin, hnot]

/-- For a product of the store: it is among the saved products of the user
exactly when the edge is in the join table. -/
theorem saved_iff_edge (s : Store) (userId productId : Id)
    (hproduct : ∃ p ∈ s.products, p.id = productId) :
    (∃ p ∈ savedProductsOf s userId, p.id = productId) ↔
      (userId, productId) ∈ s.savedProducts := by
  constructor
  · rintro ⟨p, hp, hid⟩
    rw [mem_savedProductsOf] at hp
    rw [← hid]
    exact hp.2
  · intro hedge
    obtain ⟨p, hp, hid⟩ := hproduct
    refine ⟨p, ?_, hid⟩
    rw [mem_savedProductsOf, hid]
    exact ⟨hp, hedge⟩

theorem toggleEdge_nodup (s : Store) (userId productId : Id)
    (hnodup : s.savedProducts.Nodup) :
    (toggleEdge s userId productId).savedProducts.Nodup := by
  unfold toggleEdge
  split_ifs with hedge
  · exact hnodup.filter _
  · show (s.savedProducts ++ [(userId, productId)]).Nodup
    rw [List.nodup_append]
    refine ⟨hnodup, List.nodup_singleton _, ?_⟩
    intro e he hsingle
    rw [List.mem_singleton] at hsingle
    rw [hsingle] at he
    exact hedge he

theorem savedProductsOf_ids_nodup (s : Store) (userId : Id)
    (hnodup : (s.products.map (fun p => p.id)).Nodup) :
    ((savedProductsOf s userId).map (fun p => p.id)).Nodup := by
  unfold savedProductsOf
  exact hnodup.sublist ((List.filter_sublist _).map _)

/-- C8: for an existing user and an existing product, one toggle answers 200
with the user's saved products as they are in the store after the change.
When the product was saved, these are the previously saved products without
it; when it was not, they are the previously saved products and the product.
In a store whose keys are unique the result lists no product twice, and the
join table stays free of duplicates. -/
theorem toggle_once (s : Store) (userId productId : Id) (u : User)
    (huser : userFindUnique s userId = some u)
    (hproduct : ∃ p ∈ s.products, p.id = productId) :
    ∃ s1 saved,
      asyncHandler (postSavedProducts s userId ⟨some productId⟩) =
        (s1, ⟨200, .products saved⟩) ∧
      saved = savedProductsOf s1 userId ∧
      ((∃ p ∈ savedProductsOf s userId, p.id = productId) →
        ∀ q, q ∈ saved ↔ q ∈ savedProductsOf s userId ∧ q.id ≠ productId) ∧
      ((¬ ∃ p ∈ savedProductsOf s userId, p.id = productId) →
        ∀ q, q ∈ saved ↔
          q ∈ savedProductsOf s userId ∨ (q ∈ s.products ∧ q.id = productId)) ∧
      (s.WellFormed → s1.WellFormed ∧ (saved.map (fun p => p.id)).Nodup) := by
  have hframe := toggleEdge_frame s userId productId
  refine ⟨toggleEdge s userId productId, savedProductsOf (toggleEdge s userId productId) userId,
    ?_, rfl, ?_, ?_, ?_⟩
  · rw [postSavedProducts_eval s userId productId u huser hproduct]
    rfl
  · intro hsaved q
    have hedge := (saved_iff_edge s userId productId hproduct).mp hsaved
    rw [mem_savedProductsOf, mem_savedProductsOf, hframe.2.1,
      mem_toggleEdge_of_mem s userId productId _ hedge]
    constructor
    · rintro ⟨hq, hin, hne⟩
      exact ⟨⟨hq, hin⟩, fun hid => hne (by rw [hid])⟩
    · rintro ⟨⟨hq, hin⟩, hne⟩
      refine ⟨hq, hin, ?_⟩
      intro hpair
      exact hne (Prod.mk.inj hpair).2
  · intro hsaved q
    have hedge : (userId, productId) ∉ s.savedProducts :=
      fun h => hsaved ((saved_iff_edge s userId productId hproduct).mpr h)
    rw [mem_savedProductsOf, mem_savedProductsOf, hframe.2.1,
      mem_toggleEdge_of_not_mem s userId productId _ hedge]
    constructor
    · rintro ⟨hq, hin | hpair⟩
      · exact Or.inl ⟨hq, hin⟩
      · exact Or.inr ⟨hq, (Prod.mk.inj hpair).2⟩
    · rintro (⟨hq, hin⟩ | ⟨hq, hid⟩)
      · exact ⟨hq, Or.inl hin⟩
      · exact ⟨hq, Or.inr (by rw [hid])⟩
  · intro hwf
    refine ⟨⟨?_, toggleEdge_nodup s userId productId hwf.2⟩, ?_⟩
    · rw [hframe.2.1]
      exact hwf.1
    · apply savedProductsOf_ids_nodup
      rw [hframe.2.1]
      exact hwf.1

/-- Witness for C8: user 1 of `savedShop` toggles product 7, which is not saved. -/
theorem toggle_once_witness :
    ∃ s1 saved,
      asyncHandler (postSavedProducts savedShop 1 ⟨some 7⟩) = (s1, ⟨200, .products saved⟩) ∧
      saved = savedProductsOf s1 1 ∧
      ((∃ p ∈ savedProductsOf savedShop 1, p.id = 7) →
        ∀ q, q ∈ saved ↔ q ∈ savedProductsOf savedShop 1 ∧ q.id ≠ 7) ∧
      ((¬ ∃ p ∈ savedProductsOf savedShop 1, p.id = 7) →
        ∀ q, q ∈ saved ↔
          q ∈ savedProductsOf savedShop 1 ∨ (q ∈ savedShop.products ∧ q.id = 7)) ∧
      (savedShop.WellFormed → s1.WellFormed ∧ (saved.map (fun p => p.id)).Nodup) :=
  toggle_once savedShop 1 7 ⟨1⟩ (by decide) ⟨⟨7, 100, 5⟩, by decide!, rfl⟩

/-- C7: for an existing user and an existing product, two toggles in sequence
both answer 200 and leave the user's saved products, and the whole join table
as a set of edges, as they were before the first toggle.  Starting from the
product not saved, it is saved after the first toggle and not saved after the
second. -/
theorem toggle_twice (s : Store) (userId productId : Id) (u : User)
    (huser : userFindUnique s userId = some u)
    (hproduct : ∃ p ∈ s.products, p.id = productId) :
    ∃ s1 s2 r1 r2,
      asyncHandler (postSavedProducts s userId ⟨some productId⟩) = (s1, r1) ∧
      r1.status = 200 ∧
      asyncHandler (postSavedProducts s1 userId ⟨some productId⟩) = (s2, r2) ∧
      r2.status = 200 ∧
      savedProductsOf s2 userId = savedProductsOf s userId ∧
      r2.body = .products (savedProductsOf s userId) ∧
      (∀ e, e ∈ s2.savedProducts ↔ e ∈ s.savedProducts) ∧
      ((¬ ∃ p ∈ savedProductsOf s userId, p.id = productId) →
        (∃ p ∈ savedProductsOf s1 userId, p.id = productId) ∧
        ¬ ∃ p ∈ savedProductsOf s2 userId, p.id = productId) := by
  have hframe := toggleEdge_frame s userId productId
  have hframe2 := toggleEdge_frame (toggleEdge s userId productId) userId productId
  have huser1 : userFindUnique (toggleEdge s userId productId) userId = some u := by
    unfold userFindUnique
    rw [hframe.1]
    exact huser
  have hproduct1 : ∃ p ∈ (toggleEdge s userId productId).products, p.id = productId := by
    rw [hframe.2.1]
    exact hproduct
  have hproduct2 : ∃ p ∈ (toggleEdge (toggleEdge s userId productId) userId productId).products,
      p.id = productId := by
    rw [hframe2.2.1]
    exact hproduct1
  have hsame : savedProductsOf (toggleEdge (toggleEdge s userId productId) userId productId) userId =
      savedProductsOf s userId :=
    savedProductsOf_congr s _ userId (by rw [hframe2.2.1, hframe.2.1])
      (mem_toggleEdge_twice s userId productId)
  refine ⟨toggleEdge s userId productId,
    toggleEdge (toggleEdge s userId productId) userId productId,
    ⟨200, .products (savedProductsOf (toggleEdge s userId productId) userId)⟩,
    ⟨200, .products (savedProductsOf
      (toggleEdge (toggleEdge s userId productId) userId productId) userId)⟩,
    ?_, rfl, ?_, rfl, hsame, ?_, mem_toggleEdge_twice s userId productId, ?_⟩
  · rw [postSavedProducts_eval s userId productId u huser hproduct]
    rfl
  · rw [postSavedProducts_eval _ userId productId u huser1 hproduct1]
    rfl
  · rw [hsame]
  · intro hunsaved
    have hedge : (userId, productId) ∉ s.savedProducts :=
      fun h => hunsaved ((saved_iff_edge s userId productId hproduct).mpr h)
    constructor
    · rw [saved_iff_edge _ userId productId hproduct1,
        mem_toggleEdge_of_not_mem s userId productId _ hedge]
      exact Or.inr rfl
    · rw [hsame]
      exact hunsaved

/-- Witness for C7: user 1 of `savedShop` toggles product 7 twice. -/
theorem toggle_twice_witness :
    ∃ s1 s2 r1 r2,
      asyncHandler (postSavedProducts savedShop 1 ⟨some 7⟩) = (s1, r1) ∧
      r1.status = 200 ∧
      asyncHandler (postSavedProducts s1 1 ⟨some 7⟩) = (s2, r2) ∧
      r2.status = 200 ∧
      savedProductsOf s2 1 = savedProductsOf savedShop 1 ∧
      r2.body = .products (savedProductsOf savedShop 1) ∧
      (∀ e, e ∈ s2.savedProducts ↔ e ∈ savedShop.savedProducts) ∧
      ((¬ ∃ p ∈ savedProductsOf savedShop 1, p.id = 7) →
        (∃ p ∈ savedProductsOf s1 1, p.id = 7) ∧
        ¬ ∃ p ∈ savedProductsOf s2 1, p.id = 7) :=
  toggle_twice savedShop 1 7 ⟨1⟩ (by decide) ⟨⟨7, 100, 5⟩, by decide!, rfl⟩

end Comazon
